import Mathlib

/-!
Verification of the job-orchestration core of the ai-republic backend.

The Python sources are shallowly embedded: every definition below mirrors a
function, data row, or write sequence of the backend code
(api_server.py, training_executor.py, rag_training_executor.py, database.py).
External effects (SQLite, the filesystem, the ollama and ChromaDB services,
spawned threads and subprocesses) are made explicit: persisted rows are
records, a partial UPDATE is a record-update function, external calls whose
outcome the code branches on are supplied by explicit oracle values, and the
write sequence a training thread performs is a list of effects applied in
order.  Fractional progress values (Python floats such as 0.1 or 0.95, always
exact decimals in this code) are embedded as rationals built with mkRat.
-/

namespace AiRepublic

/-! ### Python string primitives

Helpers shared by several embedded functions: the Python whitespace class
used by the re module's backslash-s on ASCII text, run collapsing as done by
re.sub of a one-character-class-plus pattern, end trimming as done by
str.strip, and the truthiness test for optional strings.
-/

/-- Membership in Python's whitespace class (space, tab, newline, carriage
return, vertical tab, form feed), as matched by backslash-s on ASCII text. -/
def isPySpace (c : Char) : Bool :=
  c = ' ' || c = '\t' || c = '\n' || c = '\r' || c = '\x0b' || c = '\x0c'

/-- Replacement of every maximal run of characters satisfying p by the single
character rep, as performed by re.sub with a pattern of the form
character-class-plus. -/
def collapseRuns (p : Char → Bool) (rep : Char) : List Char → List Char
  | [] => []
  | [c] => if p c then [rep] else [c]
  | c :: d :: cs =>
    if p c then
      (if p d then collapseRuns p rep (d :: cs) else rep :: collapseRuns p rep (d :: cs))
    else c :: collapseRuns p rep (d :: cs)

/-- Removal of all leading and trailing characters satisfying p, as performed
by Python's str.strip with an explicit character set (or, with isPySpace, by
plain str.strip). -/
def trimEnds (p : Char → Bool) (l : List Char) : List Char :=
  ((l.dropWhile p).reverse.dropWhile p).reverse

/-- Python str.strip with no argument: trim whitespace from both ends. -/
def pyStripWs (s : String) : String :=
  String.mk (trimEnds isPySpace s.toList)

/-- Python truthiness of an optional string field: None and the empty string
are both falsy. -/
def strFalsy (o : Option String) : Bool :=
  o.getD "" = ""

/-- Text before the first colon, as computed by Python name.split(colon)[0]. -/
def beforeColon (s : String) : String :=
  String.mk (s.toList.takeWhile (· ≠ ':'))

/-- Text after the first colon (kept verbatim, possibly containing further
colons), as computed by Python name.split(colon, 1)[1]. -/
def afterColon (s : String) : String :=
  String.mk ((s.toList.dropWhile (· ≠ ':')).drop 1)

/-- Whether the string contains a colon, as tested by Python's in operator. -/
def hasColon (s : String) : Bool :=
  s.toList.contains ':'

/-! ### api_server.sanitize_model_name

Embedding of sanitize_model_name (api_server.py, lines 347-368).  The
function derives the target artifact name stored on a job at creation time:
it strips characters outside alphanumerics, whitespace and hyphen, collapses
whitespace runs to single hyphens, lower-cases, collapses hyphen runs,
strips leading and trailing hyphens, then appends a colon plus the sanitized
version, or the literal latest tag when no version was supplied.
-/

/-- Characters kept by the first re.sub of sanitize_model_name: the pattern
removes everything outside alphanumerics, whitespace and hyphen. -/
def keepBaseChar (c : Char) : Bool :=
  c.isAlphanum || isPySpace c || c = '-'

/-- The hyphen test, named so the collapse and trim lemmas can refer to it. -/
def isHyphen (c : Char) : Bool :=
  c = '-'

/-- The base-name pipeline of sanitize_model_name on character lists: strip
disallowed characters, collapse whitespace runs to single hyphens,
lower-case, collapse hyphen runs, trim leading and trailing hyphens. -/
def sanitizeBaseList (l : List Char) : List Char :=
  trimEnds isHyphen
    (collapseRuns isHyphen '-'
      ((collapseRuns isPySpace '-' (l.filter keepBaseChar)).map Char.toLower))

/-- The base-name part of sanitize_model_name as a string function. -/
def sanitizeBase (s : String) : String :=
  String.mk (sanitizeBaseList s.toList)

/-- Characters kept verbatim by the version-sanitizing re.sub (alphanumeric,
hyphen, underscore, dot); every other character becomes a hyphen. -/
def sanitizeVersionChar (c : Char) : Char :=
  if c.isAlphanum || c = '-' || c = '_' || c = '.' then c else '-'

/-- Embedding of api_server.sanitize_model_name: derive the stored model name
from the human job name and the optional version string. -/
def sanitize_model_name (job_name : String) (version : String) : String :=
  let base := sanitizeBase job_name
  let vs := pyStripWs version
  if version ≠ "" && vs ≠ "" then
    base ++ ":" ++ String.mk ((vs.toList.map sanitizeVersionChar).map Char.toLower)
  else
    base ++ ":latest"

example : sanitize_model_name "My Cool Model!!" "" = "my-cool-model:latest" := by decide
example : sanitize_model_name "My Cool Model!!" "1.0" = "my-cool-model:1.0" := by decide

/-! ### Persisted data model

Rows of the training_jobs and evaluations tables (setup_db.py migration 1;
database.py), restricted to the fields the orchestration core reads or
writes.  The opaque JSON config blob is embedded as the two fields the core
consumes (selectedDatasets and baseModel); timestamps are naturals (seconds);
progress is a rational.
-/

/-- The part of a job's JSON config blob the orchestration core reads. -/
structure JobConfig where
  selectedDatasets : List Nat
  baseModel : Option String
deriving Repr, DecidableEq

/-- A persisted training_jobs row (the orchestration-relevant columns). -/
structure JobRow where
  name : String
  base_model : Option String
  model_name : Option String
  status : String
  training_type : String
  progress : ℚ
  started_at : Option Nat
  completed_at : Option Nat
  error_message : Option String
  actual_model_name : Option String
  config : JobConfig
deriving Repr, DecidableEq

/-- A partial-field update as passed to Database.update_training_job; a field
that is none is absent from the update dictionary and left unchanged. -/
structure JobUpdate where
  status : Option String
  progress : Option ℚ
  started_at : Option Nat
  completed_at : Option Nat
  error_message : Option String
  actual_model_name : Option String
deriving Repr, DecidableEq

/-- The update dictionary with no keys. -/
def JobUpdate.empty : JobUpdate :=
  ⟨none, none, none, none, none, none⟩

/-- The RUNNING update start_training persists. -/
def runningUpdate (now : Nat) : JobUpdate :=
  { JobUpdate.empty with status := some "RUNNING", started_at := some now, progress := some 0 }

/-- The STOPPED update stop_training persists. -/
def stoppedUpdate (now : Nat) : JobUpdate :=
  { JobUpdate.empty with status := some "STOPPED", completed_at := some now }

/-- Application of a partial-field update to a row, as performed by the SQL
UPDATE that Database.update_training_job builds from the dictionary keys. -/
def applyJobUpdate (j : JobRow) (u : JobUpdate) : JobRow :=
  { j with
    status := u.status.getD j.status
    progress := u.progress.getD j.progress
    started_at := (u.started_at.map some).getD j.started_at
    completed_at := (u.completed_at.map some).getD j.completed_at
    error_message := (u.error_message.map some).getD j.error_message
    actual_model_name := (u.actual_model_name.map some).getD j.actual_model_name }

/-- The five metric numbers carried in a before or after metrics blob (the
source keys are accuracy, precision, recall, f1, inferenceTime; the middle
two are renamed here because they clash with Lean commands). -/
structure Metrics where
  accuracy : ℚ
  precisionM : ℚ
  recallM : ℚ
  f1 : ℚ
  inferenceTime : ℚ
deriving Repr, DecidableEq

/-- A persisted evaluations row as inserted by Database.add_evaluation.  The
insert lists exactly these columns; in particular a base_model key in the
input dictionary is dropped, since the INSERT does not mention it. -/
structure EvalRow where
  model_name : String
  dataset_id : Option Nat
  evaluation_type : String
  before_metrics : Option Metrics
  after_metrics : Option Metrics
  improvement : Option ℚ
  notes : Option String
  status : String
  completed_at : Option Nat
deriving Repr, DecidableEq

/-- The jobs table keyed by id, plus the evaluations table (ids are list
positions, mirroring autoincrement) and the list of evaluation ids whose
start was handed to the evaluation executor. -/
structure DBState where
  jobs : List (Nat × JobRow)
  evals : List EvalRow
  startedEvals : List Nat
deriving Repr, DecidableEq

/-- Row lookup by id (SELECT by primary key). -/
def dbLookup (jobs : List (Nat × JobRow)) (id : Nat) : Option JobRow :=
  (jobs.find? (fun p => p.1 = id)).map (·.2)

/-- Whether an UPDATE or DELETE with the given id touches a row. -/
def dbHasRow (jobs : List (Nat × JobRow)) (id : Nat) : Bool :=
  jobs.any (fun p => p.1 = id)

/-- Oracle for the one external call inside _create_automatic_evaluation:
running the model-list subprocess.  none models the subprocess raising (the
current name is kept); some f models success, with f n telling whether name n
occurs in the listing output. -/
structure HookOracle where
  ollamaList : Option (String → Bool)

/-- Embedding of Database._create_automatic_evaluation (database.py, lines
553-638): on a COMPLETED update, look the job up, resolve the queryable model
name (stored actual name if truthy, else the target name with its version
suffix replaced by the latest tag, re-falling-back if the oracle says the
name is unknown), and, when the config lists at least one dataset and the
job has a truthy model_name, append one PENDING accuracy evaluation
referencing the first dataset id and hand it to the evaluation executor. -/
def create_automatic_evaluation (o : HookOracle) (db : DBState) (job_id : Nat) : DBState :=
  match dbLookup db.jobs job_id with
  | none => db
  | some job =>
    if strFalsy job.model_name then db
    else
      let mn := job.model_name.getD ""
      let fallback := if hasColon mn then beforeColon mn ++ ":latest" else mn
      let name0 := if strFalsy job.actual_model_name then fallback
                   else job.actual_model_name.getD ""
      let name1 := match o.ollamaList with
                   | none => name0
                   | some inList => if inList name0 then name0 else fallback
      match job.config.selectedDatasets with
      | [] => db
      | d :: _ =>
        let row : EvalRow :=
          { model_name := name1
            dataset_id := some d
            evaluation_type := "accuracy"
            before_metrics := none
            after_metrics := none
            improvement := none
            notes := some ("Automatic evaluation after " ++ job.training_type ++ " completion")
            status := "PENDING"
            completed_at := none }
        { db with
          evals := db.evals ++ [row]
          startedEvals := db.startedEvals ++ [db.evals.length] }

/-- Embedding of Database.update_training_job (database.py, lines 358-388):
apply the partial update to the addressed row, then, when the update sets
status to COMPLETED, run the automatic-evaluation hook; the boolean result
is the rowcount test. -/
def update_training_job (o : HookOracle) (db : DBState) (job_id : Nat) (u : JobUpdate) :
    DBState × Bool :=
  let jobs' := db.jobs.map (fun p => if p.1 = job_id then (p.1, applyJobUpdate p.2 u) else p)
  let db' : DBState := { db with jobs := jobs' }
  let db'' := if u.status = some "COMPLETED" then create_automatic_evaluation o db' job_id else db'
  (db'', dbHasRow db.jobs job_id)

/-! ### Executor write vocabulary

Every database write a training thread performs (training_executor.py and
rag_training_executor.py) is one of the following shapes: a bare progress
update, the final COMPLETED update (with the stored actual model name in the
rag executor's knowledge-augmentation path, without it everywhere else), or
the FAILED update written by the catch-all in _execute_training.  The thread
additionally performs, in the rag executor's knowledge-augmentation path,
the direct mock-evaluation insert of _store_training_evaluation.
-/

/-- Lower-casing of a Python string via str.lower (ASCII letters). -/
def lowerString (s : String) : String :=
  String.mk (s.toList.map Char.toLower)

/-- One database write performed by a training thread. -/
inductive StageWrite where
  | setProgress (p : ℚ)
  | complete (completedAt : Nat)
  | completeWithName (completedAt : Nat) (actualName : String)
  | fail (msg : String) (completedAt : Nat)
deriving Repr, DecidableEq

/-- The partial-field update dictionary each write shape passes to
Database.update_training_job, exactly as written in the source. -/
def StageWrite.toUpdate : StageWrite → JobUpdate
  | .setProgress p => { JobUpdate.empty with progress := some p }
  | .complete t =>
    { JobUpdate.empty with status := some "COMPLETED", progress := some 1, completed_at := some t }
  | .completeWithName t nm =>
    { JobUpdate.empty with
      status := some "COMPLETED"
      progress := some 1
      completed_at := some t
      actual_model_name := some nm }
  | .fail msg t =>
    { JobUpdate.empty with
      status := some "FAILED"
      error_message := some msg
      completed_at := some t }

/-- One effect of a training thread: a job-row write, or the direct
evaluation insert of _store_training_evaluation (rag executor only). -/
inductive ExecEffect where
  | stageW (w : StageWrite)
  | storeEval (modelName : String) (baseModel : Option String) (datasets : List Nat) (now : Nat)
deriving Repr, DecidableEq

/-- The mock evaluation row _store_training_evaluation inserts
(rag_training_executor.py, lines 271-313); add_evaluation drops the
base_model key, which survives only inside the notes text. -/
def mockEvalRow (modelName : String) (baseModel : Option String) (datasetId : Nat) (now : Nat) :
    EvalRow :=
  { model_name := modelName
    dataset_id := some datasetId
    evaluation_type := "accuracy"
    before_metrics := some ⟨mkRat 3 10, mkRat 3 10, mkRat 3 10, mkRat 3 10, mkRat 11 5⟩
    after_metrics := some ⟨mkRat 4 5, mkRat 4 5, mkRat 4 5, mkRat 4 5, mkRat 5 2⟩
    improvement := some (mkRat 1667 10)
    notes := some ("RAG training evaluation: " ++ baseModel.getD "None" ++ " -> " ++ modelName)
    status := "COMPLETED"
    completed_at := some now }

/-- Application of one thread effect to the database state.  A stage write
goes through update_training_job (hence triggers the automatic-evaluation
hook when it sets COMPLETED); the mock-evaluation insert is skipped when the
config lists no datasets, and is never handed to the evaluation executor. -/
def applyExecEffect (o : HookOracle) (id : Nat) (db : DBState) : ExecEffect → DBState
  | .stageW w => (update_training_job o db id w.toUpdate).1
  | .storeEval m b ds now =>
    match ds with
    | [] => db
    | d :: _ => { db with evals := db.evals ++ [mockEvalRow m b d now] }

/-- Application of a thread's effect list in order. -/
def applyExecEffects (o : HookOracle) (id : Nat) (db : DBState) (l : List ExecEffect) : DBState :=
  l.foldl (applyExecEffect o id) db

/-! ### In-memory registry of running jobs

The running_jobs dictionary both executor classes keep: execution handle
(the thread object is irrelevant to the embedding), cached status, start
time.  Only start_training inserts and only stop_training removes; the
training thread itself never touches the dictionary.
-/

/-- The in-memory per-job bookkeeping entry. -/
structure Handle where
  status : String
  started_at : Nat
deriving Repr, DecidableEq

/-- The running_jobs dictionary. -/
abbrev Registry := List (Nat × Handle)

/-- Dictionary overwrite-insert (Python dict assignment). -/
def registryInsert (reg : Registry) (id : Nat) (h : Handle) : Registry :=
  reg.filter (fun p => p.1 ≠ id) ++ [(id, h)]

/-- Dictionary membership test (Python in). -/
def registryHas (reg : Registry) (id : Nat) : Bool :=
  reg.any (fun p => p.1 = id)

/-- Dictionary removal (Python del). -/
def registryRemove (reg : Registry) (id : Nat) : Registry :=
  reg.filter (fun p => p.1 ≠ id)

/-- Registry lookup. -/
def registryLookup (reg : Registry) (id : Nat) : Option Handle :=
  (reg.find? (fun p => p.1 = id)).map (·.2)

namespace TrainingExecutor

/-- Embedding of TrainingExecutor.start_training (training_executor.py,
lines 23-55; rag_training_executor.py has the identical method): with no
precondition check of any kind, persist status RUNNING with progress 0 and a
fresh started timestamp (a row-update, hence a no-op for an id absent from
the store), spawn the training thread, overwrite any registry entry for the
id, and return true.  (The except branch, reachable only when spawning
itself raises, is outside this embedding.) -/
def start_training (o : HookOracle) (db : DBState) (reg : Registry) (job_id : Nat) (now : Nat) :
    DBState × Registry × Bool :=
  let db' := (update_training_job o db job_id (runningUpdate now)).1
  (db', registryInsert reg job_id ⟨"RUNNING", now⟩, true)

/-- Embedding of TrainingExecutor.stop_training (training_executor.py, lines
766-787): if the id has a registry entry, persist status STOPPED with the
completion timestamp, delete the entry and return true; otherwise do nothing
and return false. -/
def stop_training (o : HookOracle) (db : DBState) (reg : Registry) (job_id : Nat) (now : Nat) :
    DBState × Registry × Bool :=
  if registryHas reg job_id then
    ((update_training_job o db job_id (stoppedUpdate now)).1,
      registryRemove reg job_id, true)
  else (db, reg, false)

/-- Outcomes of the three fallible stages of the knowledge-augmentation
pipeline in training_executor.py (_create_modelfile, _ingest_knowledge_base,
_create_ollama_model); some e is the exception text observed by the
stage-level try. -/
structure RagStageOracle where
  modelfileErr : Option String
  ingestErr : Option String
  ollamaErr : Option String

/-- Outcomes of the three fallible stages of the adapter-tuning pipeline
(_prepare_lora_data, _run_lora_training, _create_ollama_model_from_lora). -/
structure LoraStageOracle where
  prepErr : Option String
  trainErr : Option String
  ollamaErr : Option String

/-- The write sequence of _execute_rag_training (training_executor.py, lines
83-119) up to the point where a stage raises: progress 0.1, Modelfile,
progress 0.3, knowledge-base ingestion only when the config lists datasets,
progress 0.6, model creation, progress 0.9, then the COMPLETED update.  The
second component is the exception text propagated to _execute_training. -/
def rag_writes (cfg : JobConfig) (o : RagStageOracle) (now : Nat) :
    List StageWrite × Option String :=
  let w1 := [StageWrite.setProgress (mkRat 1 10)]
  match o.modelfileErr with
  | some e => (w1, some e)
  | none =>
    let w2 := w1 ++ [StageWrite.setProgress (mkRat 3 10)]
    match (if cfg.selectedDatasets.isEmpty then none else o.ingestErr) with
    | some e => (w2, some e)
    | none =>
      let w3 := w2 ++ [StageWrite.setProgress (mkRat 6 10)]
      match o.ollamaErr with
      | some e => (w3, some e)
      | none => (w3 ++ [StageWrite.setProgress (mkRat 9 10), StageWrite.complete now], none)

/-- The write sequence of _execute_lora_training (training_executor.py,
lines 121-156): progress 0.1, data preparation, progress 0.2, training run,
progress 0.8, model creation, progress 0.95, then the COMPLETED update —
which carries no actual model name. -/
def lora_writes (o : LoraStageOracle) (now : Nat) : List StageWrite × Option String :=
  let w1 := [StageWrite.setProgress (mkRat 1 10)]
  match o.prepErr with
  | some e => (w1, some e)
  | none =>
    let w2 := w1 ++ [StageWrite.setProgress (mkRat 2 10)]
    match o.trainErr with
    | some e => (w2, some e)
    | none =>
      let w3 := w2 ++ [StageWrite.setProgress (mkRat 8 10)]
      match o.ollamaErr with
      | some e => (w3, some e)
      | none => (w3 ++ [StageWrite.setProgress (mkRat 95 100), StageWrite.complete now], none)

/-- Embedding of TrainingExecutor._execute_training (training_executor.py,
lines 57-81): dispatch on the lower-cased training type; a propagated stage
exception (re-wrapped by the pipeline-level catch) or an unsupported type
becomes one final FAILED write.  The method never touches running_jobs. -/
def execute_training (job : JobRow) (orag : RagStageOracle) (olora : LoraStageOracle)
    (now : Nat) : List ExecEffect :=
  let tt := lowerString job.training_type
  if tt = "rag" then
    match rag_writes job.config orag now with
    | (ws, none) => ws.map ExecEffect.stageW
    | (ws, some e) =>
      ws.map ExecEffect.stageW ++
        [ExecEffect.stageW (StageWrite.fail ("RAG training failed: " ++ e) now)]
  else if tt = "lora" then
    match lora_writes olora now with
    | (ws, none) => ws.map ExecEffect.stageW
    | (ws, some e) =>
      ws.map ExecEffect.stageW ++
        [ExecEffect.stageW (StageWrite.fail ("LoRA training failed: " ++ e) now)]
  else
    [ExecEffect.stageW
      (StageWrite.fail ("Unsupported training type: " ++ job.training_type) now)]

end TrainingExecutor

/-! ### Dataset-to-training-sample conversion

Embedding of _convert_dataset_to_lora_format and the 80/20 partitioning in
_prepare_lora_data (training_executor.py, lines 340-422).  A raw dataset
record is polymorphic over several schemas; a field that is none models a
missing dictionary key.  The content field models a nested-object-as-string
record: none means no content key, some none a content string that
ast.literal_eval rejects, some (some d) one that parses to dictionary d.
-/

/-- The keys read out of a parsed content string. -/
structure ContentData where
  Instruction : Option String
  instruction : Option String
  Response : Option String
  output : Option String
  Input : Option String
  input : Option String
deriving Repr, DecidableEq

/-- A raw dataset record from the samples_preview metadata list. -/
structure RawSample where
  instruction : Option String
  Instruction : Option String
  input : Option String
  Input : Option String
  output : Option String
  Response : Option String
  system : Option String
  content : Option (Option ContentData)
deriving Repr, DecidableEq

/-- A canonical training sample. -/
structure LoraSample where
  instruction : String
  input : String
  output : String
  system : String
deriving Repr, DecidableEq

/-- Python slice samples[:-len(samples)//5]: unary minus binds tighter than
floor division, so the bound is (-n)//5 = -((n+4)/5), minus the ceiling of
n/5.  A negative bound -k keeps the first n-k elements; for the empty list
the bound is (-0)//5 = 0 and the slice is empty, which l.take (l.length - k)
with k = 0 also gives, so take is exact in every case. -/
def pySliceDropLast {α : Type} (l : List α) (k : Nat) : List α :=
  l.take (l.length - k)

/-- Python slice samples[-len(samples)//5:], the complementary slice: a
negative bound -k keeps the last k elements, and for the empty list the
bound 0 keeps the whole (empty) list, which l.drop (l.length - k) with
k = 0 also gives, so drop is exact in every case. -/
def pySliceTakeLast {α : Type} (l : List α) (k : Nat) : List α :=
  l.drop (l.length - k)

namespace TrainingExecutor

/-- Normalization of one raw record to the canonical sample shape, exactly
as built in _convert_dataset_to_lora_format: primary keys with capitalized
fallbacks, then, when a content key is present and the instruction came out
empty, the parsed content dictionary overwrites instruction, output and
input (a parse failure is swallowed). -/
def convert_one (s : RawSample) : LoraSample :=
  let base : LoraSample :=
    { instruction := s.instruction.getD (s.Instruction.getD "")
      input := s.input.getD (s.Input.getD "")
      output := s.output.getD (s.Response.getD "")
      system := s.system.getD "" }
  match s.content with
  | some (some d) =>
    if base.instruction = "" then
      { base with
        instruction := d.Instruction.getD (d.instruction.getD "")
        output := d.Response.getD (d.output.getD "")
        input := d.Input.getD (d.input.getD "") }
    else base
  | _ => base

/-- The keep test of the conversion loop: a normalized record is kept when
its instruction or its output is non-empty. -/
def keepSample (s : RawSample) : Bool :=
  (convert_one s).instruction ≠ "" || (convert_one s).output ≠ ""

/-- Embedding of _convert_dataset_to_lora_format (training_executor.py,
lines 392-422): normalize every record of the samples_preview list in order
and keep those from which an instruction or output was derived. -/
def convert_dataset_to_lora_format (samples_preview : List RawSample) : List LoraSample :=
  samples_preview.filterMap (fun s =>
    if keepSample s then some (convert_one s) else none)

/-- The per-dataset 80/20 partition of _prepare_lora_data (lines 371-372):
samples[:-len(samples)//5] and samples[-len(samples)//5:].  The shared bound
-len(samples)//5 parses as (-n)//5 = minus the ceiling of n/5, so with
k = (n+4)/5 the training part keeps the first n-k samples — floor(0.8 n) of
them — and the validation part the last k. -/
def prepare_split (samples : List LoraSample) : List LoraSample × List LoraSample :=
  (pySliceDropLast samples ((samples.length + 4) / 5),
   pySliceTakeLast samples ((samples.length + 4) / 5))

/-- The aggregation loop of _prepare_lora_data (training_executor.py, lines
353-377) over the resolved datasets: convert each dataset, skip those with
no convertible records, and append each remaining dataset's training and
validation parts to the accumulated partitions. -/
def prepare_lora_data (datasets : List (List RawSample)) :
    List LoraSample × List LoraSample :=
  datasets.foldl
    (fun acc ds =>
      let samples := convert_dataset_to_lora_format ds
      if samples.isEmpty then acc
      else (acc.1 ++ (prepare_split samples).1, acc.2 ++ (prepare_split samples).2))
    ([], [])

end TrainingExecutor

namespace RagTrainingExecutor

/-- Embedding of the name sanitization inside _create_ollama_model
(rag_training_executor.py, lines 232-269): lower-case, replace characters
outside alphanumerics, dot and hyphen by hyphens, strip outer hyphens. -/
def sanitizeOllamaPart (s : String) : String :=
  String.mk (trimEnds isHyphen
    ((s.toList.map Char.toLower).map
      (fun c => if c.isAlphanum || c = '.' || c = '-' then c else '-')))

/-- The model name _create_ollama_model builds and returns: when the job
name carries a colon, the version suffix is preserved verbatim and only the
base is sanitized; otherwise the latest tag is appended. -/
def create_ollama_model_name (model_name : String) : String :=
  if hasColon model_name then
    sanitizeOllamaPart (beforeColon model_name) ++ ":" ++ afterColon model_name
  else
    sanitizeOllamaPart model_name ++ ":latest"

/-- The write sequence of _execute_rag_training (rag_training_executor.py,
lines 78-113): progress 0.1, Modelfile, progress 0.3, ingestion only when
the config lists datasets, progress 0.6, model creation, progress 0.9, then
the COMPLETED update carrying the actual model name the creation step
returned. -/
def rag_writes (jobName : String) (cfg : JobConfig) (o : TrainingExecutor.RagStageOracle)
    (now : Nat) : List StageWrite × Option String :=
  let w1 := [StageWrite.setProgress (mkRat 1 10)]
  match o.modelfileErr with
  | some e => (w1, some e)
  | none =>
    let w2 := w1 ++ [StageWrite.setProgress (mkRat 3 10)]
    match (if cfg.selectedDatasets.isEmpty then none else o.ingestErr) with
    | some e => (w2, some e)
    | none =>
      let w3 := w2 ++ [StageWrite.setProgress (mkRat 6 10)]
      match o.ollamaErr with
      | some e => (w3, some e)
      | none =>
        (w3 ++ [StageWrite.setProgress (mkRat 9 10),
          StageWrite.completeWithName now (create_ollama_model_name jobName)], none)

/-- The write sequence of _execute_lora_training (rag_training_executor.py,
lines 316-345): progress 0.1, data preparation, progress 0.2, training run,
progress 0.8, model creation, progress 0.95, then the COMPLETED update —
which carries no actual model name. -/
def lora_writes (o : TrainingExecutor.LoraStageOracle) (now : Nat) :
    List StageWrite × Option String :=
  let w1 := [StageWrite.setProgress (mkRat 1 10)]
  match o.prepErr with
  | some e => (w1, some e)
  | none =>
    let w2 := w1 ++ [StageWrite.setProgress (mkRat 2 10)]
    match o.trainErr with
    | some e => (w2, some e)
    | none =>
      let w3 := w2 ++ [StageWrite.setProgress (mkRat 8 10)]
      match o.ollamaErr with
      | some e => (w3, some e)
      | none => (w3 ++ [StageWrite.setProgress (mkRat 95 100), StageWrite.complete now], none)

/-- Embedding of TrainingExecutor._execute_training of the rag executor
(rag_training_executor.py, lines 54-75): dispatch on the lower-cased
training type; on a successful knowledge-augmentation run the thread then
calls _store_training_evaluation, inserting the mock evaluation; any
propagated stage exception or an unsupported type becomes one final FAILED
write.  The method never touches running_jobs. -/
def execute_training (job : JobRow) (orag : TrainingExecutor.RagStageOracle)
    (olora : TrainingExecutor.LoraStageOracle) (now : Nat) : List ExecEffect :=
  let tt := lowerString job.training_type
  if tt = "rag" then
    match rag_writes job.name job.config orag now with
    | (ws, none) =>
      ws.map ExecEffect.stageW ++
        [ExecEffect.storeEval (create_ollama_model_name job.name) job.base_model
          job.config.selectedDatasets now]
    | (ws, some e) =>
      ws.map ExecEffect.stageW ++
        [ExecEffect.stageW (StageWrite.fail ("RAG training failed: " ++ e) now)]
  else if tt = "lora" then
    match lora_writes olora now with
    | (ws, none) => ws.map ExecEffect.stageW
    | (ws, some e) =>
      ws.map ExecEffect.stageW ++
        [ExecEffect.stageW (StageWrite.fail ("LoRA training failed: " ++ e) now)]
  else
    [ExecEffect.stageW
      (StageWrite.fail ("Unsupported training type: " ++ lowerString job.training_type) now)]

end RagTrainingExecutor

namespace ApiServer

/-! ### api_server.detect_stuck_training

Embedding of the stuck-job sweep endpoint (api_server.py, lines 1533-1582).
The timeout comparison is against the literal string LoRA, case-sensitively;
a job whose stored training_type is the lower-case lora the job-creation
endpoint writes therefore falls into the else branch and gets the ten-minute
timeout.
-/

/-- The type-specific timeout in minutes: thirty when the stored
training_type equals the exact string LoRA, ten otherwise. -/
def stuckTimeoutMinutes (training_type : String) : Nat :=
  if training_type = "LoRA" then 30 else 10

/-- Round-half-even integer rounding on rationals, modelling the tie
behaviour of Python fixed-point float formatting. -/
def roundHalfEvenQ (x : ℚ) : ℤ :=
  let f := ⌊x⌋
  let r := x - f
  if r < mkRat 1 2 then f
  else if mkRat 1 2 < r then f + 1
  else if f % 2 = 0 then f else f + 1

/-- One-decimal fixed-point rendering of a rational, modelling a Python
format spec of one fractional digit. -/
def formatFixed1 (x : ℚ) : String :=
  let t := roundHalfEvenQ (x * 10)
  if t < 0 then "-" ++ toString ((-t) / 10) ++ "." ++ toString ((-t) % 10)
  else toString (t / 10) ++ "." ++ toString (t % 10)

/-- Whole elapsed minutes since the start timestamp, as computed from the
elapsed seconds by int truncation. -/
def elapsedMinutes (startedAt : Nat) (now : Nat) : Nat :=
  ((now : ℤ) - (startedAt : ℤ)).toNat / 60

/-- The error message the sweep persists on a stuck job, encoding the
elapsed minutes and the last-seen progress percentage. -/
def stuckMessage (mins : Nat) (progress : ℚ) : String :=
  "Training stuck for " ++ toString mins ++ " minutes with " ++
    formatFixed1 (progress * 100) ++ "% progress"

/-- The stuck test of the sweep: status RUNNING, a started timestamp set,
elapsed time strictly above the type-specific timeout, and progress strictly
below one half. -/
def isStuck (j : JobRow) (now : Nat) : Bool :=
  j.status = "RUNNING" &&
    (match j.started_at with
     | none => false
     | some s =>
       decide ((stuckTimeoutMinutes j.training_type : ℤ) * 60 < (now : ℤ) - (s : ℤ)) &&
         decide (j.progress < mkRat 1 2))

/-- The FAILED update the sweep persists on a stuck job. -/
def stuckFailUpdate (j : JobRow) (now : Nat) : JobUpdate :=
  { JobUpdate.empty with
    status := some "FAILED"
    error_message := some
      (stuckMessage (elapsedMinutes (j.started_at.getD 0) now) j.progress) }

/-- Embedding of detect_stuck_training: collect the stuck jobs, then persist
each as FAILED with the encoding error message; the second component is the
list of remediated job ids. -/
def detect_stuck_training (o : HookOracle) (db : DBState) (now : Nat) :
    DBState × List Nat :=
  let stuck := db.jobs.filter (fun p => isStuck p.2 now)
  let db' := stuck.foldl
    (fun acc p => (update_training_job o acc p.1 (stuckFailUpdate p.2 now)).1)
    db
  (db', stuck.map (·.1))

/-! ### api_server.delete_training_job

Embedding of the deletion endpoint (api_server.py, lines 538-626) for a job
present in the store.  Each external removal is an oracle outcome: ok b is a
normal return (b the deleted/returncode-zero/existence answer), error e an
exception whose text e the surrounding try converts into a recorded outcome
string.  The modelDir outcome covers the existence check together with the
directory removal, whose failures are caught by the same clause; when it
raises, the nested ollama removal is skipped.  The effects list records the
external interactions in program order.
-/

/-- One external interaction of the deletion endpoint. -/
inductive CleanupEffect where
  | chromaDelete (collection : String)
  | modelDirCleanup (dir : String)
  | ollamaRemove (model : String)
  | trainDirCleanup (dir : String)
  | dbDeleteJob (id : Nat)
deriving Repr, DecidableEq

/-- Outcomes of the five external interactions the deletion endpoint can
attempt. -/
structure CleanupOracle where
  chroma : Except String Bool
  modelDir : Except String Bool
  ollamaRm : Except String Bool
  trainDir : Except String Bool
  dbDelete : Except String Bool

/-- What the deletion endpoint produces: the itemized cleanup report, the
overall success flag of the HTTP response, and the ordered external
interactions. -/
structure DeleteResult where
  cleanup_results : List String
  success : Bool
  effects : List CleanupEffect
deriving Repr, DecidableEq

/-- Replacement of colons and slashes by underscores, as the two chained
str.replace calls produce the model directory name. -/
def underscoreName (s : String) : String :=
  String.mk (s.toList.map (fun c => if c = ':' || c = '/' then '_' else c))

/-- Embedding of delete_training_job for a job found in the store: chroma
collection deletion only for rag jobs; model directory plus ollama artifact
removal only for COMPLETED jobs with a truthy model name; training-data
directory removal always; the persistence delete runs last and alone decides
the reported success. -/
def delete_training_job (job : JobRow) (job_id : Nat) (o : CleanupOracle) : DeleteResult :=
  let collName := "knowledge_base_job_" ++ toString job_id
  let s1 : List String × List CleanupEffect :=
    if job.training_type = "rag" then
      (match o.chroma with
       | .ok true => ["ChromaDB collection '" ++ collName ++ "': deleted"]
       | .ok false => ["ChromaDB collection '" ++ collName ++ "': not found"]
       | .error e => ["ChromaDB cleanup error: " ++ e],
       [.chromaDelete collName])
    else ([], [])
  let s2 : List String × List CleanupEffect :=
    if job.status = "COMPLETED" && !(strFalsy job.model_name) then
      let mn := job.model_name.getD ""
      let dir := "models/" ++ underscoreName mn
      match o.modelDir with
      | .error e => (["Model file cleanup error: " ++ e], [.modelDirCleanup dir])
      | .ok b =>
        let dirMsg := if b then "Model directory '" ++ dir ++ "': deleted"
                      else "Model directory '" ++ dir ++ "': not found"
        let oMsg := match o.ollamaRm with
          | .ok true => "Ollama model '" ++ mn ++ "': removed"
          | .ok false => "Ollama model '" ++ mn ++ "': not found or error"
          | .error e => "Ollama cleanup error: " ++ e
        ([dirMsg, oMsg], [.modelDirCleanup dir, .ollamaRemove mn])
    else ([], [])
  let tdir := "training_data/job_" ++ toString job_id
  let s3 : List String × List CleanupEffect :=
    (match o.trainDir with
     | .ok true => ["Training data directory '" ++ tdir ++ "': deleted"]
     | .ok false => ["Training data directory '" ++ tdir ++ "': not found"]
     | .error e => ["Training data cleanup error: " ++ e],
     [.trainDirCleanup tdir])
  { cleanup_results := s1.1 ++ s2.1 ++ s3.1
    success := match o.dbDelete with | .ok b => b | .error _ => false
    effects := s1.2 ++ s2.2 ++ s3.2 ++ [.dbDeleteJob job_id] }

end ApiServer

/-! ### The exposed operations

The operations the API layer exposes on one job (start, stop, the
progress-update endpoint, the stuck sweep) together with the individual
writes a running training thread performs, acting on the combined persisted
and in-memory state.  The progress endpoint is embedded with its progress
key only; the optional step-detail keys it forwards address columns outside
the schema.
-/

/-- The combined persisted plus in-memory state. -/
structure SystemState where
  db : DBState
  reg : Registry
deriving Repr, DecidableEq

/-- One exposed operation addressed at a job id. -/
inductive ExposedOp where
  | startJob (now : Nat)
  | stopJob (now : Nat)
  | progressPost (p : ℚ)
  | execWrite (e : ExecEffect)
  | sweep (now : Nat)
deriving Repr, DecidableEq

/-- Application of one exposed operation: start and stop go through the
executor methods, the progress endpoint through update_training_job, a
thread write through applyExecEffect, and the sweep through
detect_stuck_training. -/
def applyExposed (o : HookOracle) (s : SystemState) (job_id : Nat) : ExposedOp → SystemState
  | .startJob now =>
    let r := TrainingExecutor.start_training o s.db s.reg job_id now
    ⟨r.1, r.2.1⟩
  | .stopJob now =>
    let r := TrainingExecutor.stop_training o s.db s.reg job_id now
    ⟨r.1, r.2.1⟩
  | .progressPost p =>
    ⟨(update_training_job o s.db job_id { JobUpdate.empty with progress := some p }).1, s.reg⟩
  | .execWrite e => ⟨applyExecEffect o job_id s.db e, s.reg⟩
  | .sweep now => ⟨(ApiServer.detect_stuck_training o s.db now).1, s.reg⟩

/-- The three terminal status strings. -/
def terminalStatus (st : String) : Bool :=
  st = "COMPLETED" || st = "FAILED" || st = "STOPPED"

/-! ### Shared lemmas about the persistence embedding -/

theorem dbLookup_nil (j : Nat) : dbLookup [] j = none := rfl

theorem dbLookup_cons (k : Nat) (r : JobRow) (t : List (Nat × JobRow)) (j : Nat) :
    dbLookup ((k, r) :: t) j = if k = j then some r else dbLookup t j := by
  by_cases h : k = j <;> simp [dbLookup, List.find?_cons, h]

theorem dbLookup_mapUpdate (jobs : List (Nat × JobRow)) (i : Nat) (g : JobRow → JobRow)
    (j : Nat) :
    dbLookup (jobs.map (fun p => if p.1 = i then (p.1, g p.2) else p)) j
      = if j = i then (dbLookup jobs j).map g else dbLookup jobs j := by
  induction jobs with
  | nil => by_cases h : j = i <;> simp [dbLookup_nil, h]
  | cons p ps ih =>
    obtain ⟨k, r⟩ := p
    by_cases hk : k = i <;> by_cases hj : k = j
    · subst hk
      subst hj
      simp [dbLookup_cons, ih]
    · subst hk
      have hji : ¬ (j = k) := fun h => hj h.symm
      simp [dbLookup_cons, hj, hji, ih]
    · subst hj
      simp [dbLookup_cons, hk, ih]
    · have hji : ¬ (j = k) := fun h => hj h.symm
      simp [dbLookup_cons, hk, hj, hji, ih]

theorem create_automatic_evaluation_jobs (o : HookOracle) (db : DBState) (id : Nat) :
    (create_automatic_evaluation o db id).jobs = db.jobs := by
  unfold create_automatic_evaluation
  rcases dbLookup db.jobs id with _ | job
  · rfl
  · dsimp only
    split
    · rfl
    · split <;> rfl

theorem update_training_job_jobs (o : HookOracle) (db : DBState) (id : Nat) (u : JobUpdate) :
    ((update_training_job o db id u).1).jobs
      = db.jobs.map (fun p => if p.1 = id then (p.1, applyJobUpdate p.2 u) else p) := by
  unfold update_training_job
  dsimp only
  split
  · rw [create_automatic_evaluation_jobs]
  · rfl

theorem update_training_job_lookup (o : HookOracle) (db : DBState) (id : Nat) (u : JobUpdate)
    (j : Nat) :
    dbLookup ((update_training_job o db id u).1).jobs j
      = if j = id then (dbLookup db.jobs j).map (applyJobUpdate · u) else dbLookup db.jobs j := by
  rw [update_training_job_jobs]
  exact dbLookup_mapUpdate db.jobs id (fun r => applyJobUpdate r u) j

theorem update_training_job_evals_of_ne (o : HookOracle) (db : DBState) (id : Nat)
    (u : JobUpdate) (h : u.status ≠ some "COMPLETED") :
    ((update_training_job o db id u).1).evals = db.evals ∧
      ((update_training_job o db id u).1).startedEvals = db.startedEvals := by
  unfold update_training_job
  dsimp only
  rw [if_neg h]
  exact ⟨rfl, rfl⟩

theorem applyJobUpdate_status_none (j : JobRow) (u : JobUpdate) (h : u.status = none) :
    (applyJobUpdate j u).status = j.status := by
  simp [applyJobUpdate, h]

theorem applyJobUpdate_status_some (j : JobRow) (u : JobUpdate) (st : String)
    (h : u.status = some st) : (applyJobUpdate j u).status = st := by
  simp [applyJobUpdate, h]

theorem registryLookup_insert (reg : Registry) (id : Nat) (h : Handle) :
    registryLookup (registryInsert reg id h) id = some h := by
  unfold registryLookup registryInsert
  rw [List.find?_append]
  have hnone : (reg.filter (fun p => p.1 ≠ id)).find? (fun p => p.1 = id) = none := by
    rw [List.find?_eq_none]
    intro p hp
    have := List.of_mem_filter hp
    simpa using this
  rw [hnone]
  simp

theorem registryHas_insert (reg : Registry) (id : Nat) (h : Handle) :
    registryHas (registryInsert reg id h) id = true := by
  unfold registryHas registryInsert
  rw [List.any_append]
  simp

/-! ### Sample fixtures used by the concrete counterexamples and witnesses -/

/-- A config selecting dataset 7. -/
def sampleCfg : JobConfig := ⟨[7], some "qwen2.5:7b"⟩

/-- The trivial hook oracle: the model-list subprocess raises, so the
resolved name is kept. -/
def oracleNone : HookOracle := ⟨none⟩

/-- Stage oracles for a fully successful run. -/
def ragOK : TrainingExecutor.RagStageOracle := ⟨none, none, none⟩

/-- Stage oracles for a fully successful run. -/
def loraOK : TrainingExecutor.LoraStageOracle := ⟨none, none, none⟩

/-- An adapter-tuning job row as the creation endpoint persists it
(training_type lora, PENDING, model name derived). -/
def sampleLoraJob : JobRow :=
  ⟨"My Job", some "qwen2.5:7b", some "my-job:latest", "PENDING", "lora",
    0, none, none, none, none, sampleCfg⟩

/-- A knowledge-augmentation job row (training_type rag), RUNNING. -/
def sampleRagJob : JobRow :=
  ⟨"My Rag", some "qwen2.5:7b", some "my-rag:latest", "RUNNING", "rag",
    0, some 0, none, none, none, sampleCfg⟩

/-- A job that has already reached the terminal status COMPLETED. -/
def sampleDoneJob : JobRow :=
  { sampleLoraJob with status := "COMPLETED", progress := 1, completed_at := some 50 }

/-! ### C10 — Start performs no precondition checking -/

/-- C10: for every store, registry and job id — the id may be absent from
the store or belong to an already active or terminal job — start_training
unconditionally issues the RUNNING/progress-0/fresh-started row update (a
no-op on the store when the id is absent, since the UPDATE matches no row),
overwrites any registry handle for the id with a fresh RUNNING handle, and
returns true. -/
theorem start_training_unconditional (o : HookOracle) (db : DBState) (reg : Registry)
    (id now : Nat) :
    (TrainingExecutor.start_training o db reg id now).2.2 = true ∧
    (TrainingExecutor.start_training o db reg id now).2.1
      = registryInsert reg id ⟨"RUNNING", now⟩ ∧
    registryLookup (TrainingExecutor.start_training o db reg id now).2.1 id
      = some ⟨"RUNNING", now⟩ ∧
    (∀ row, dbLookup db.jobs id = some row →
      dbLookup (TrainingExecutor.start_training o db reg id now).1.jobs id
        = some { row with status := "RUNNING", progress := 0, started_at := some now }) ∧
    (dbLookup db.jobs id = none → (TrainingExecutor.start_training o db reg id now).1 = db) := by
  refine ⟨rfl, rfl, registryLookup_insert reg id _, ?_, ?_⟩
  · intro row hrow
    have h := update_training_job_lookup o db id (runningUpdate now) id
    rw [if_pos rfl, hrow] at h
    unfold TrainingExecutor.start_training
    dsimp only
    rw [h]
    rfl
  · intro hnone
    have hfind : db.jobs.find? (fun p => p.1 = id) = none := by
      rcases hf : db.jobs.find? (fun p => p.1 = id) with _ | q
      · exact hf
      · exfalso
        unfold dbLookup at hnone
        rw [hf] at hnone
        exact Option.noConfusion hnone
    have hall : ∀ p ∈ db.jobs, ¬ (p.1 = id) := by
      intro p hp
      have := List.find?_eq_none.mp hfind p hp
      simpa using this
    have hmap : db.jobs.map
        (fun p => if p.1 = id then (p.1, applyJobUpdate p.2 (runningUpdate now)) else p)
        = db.jobs := by
      have hcong : ∀ p ∈ db.jobs,
          (if p.1 = id then (p.1, applyJobUpdate p.2 (runningUpdate now)) else p) = p := by
        intro p hp
        rw [if_neg (hall p hp)]
      rw [List.map_congr_left hcong, List.map_id']
    unfold TrainingExecutor.start_training update_training_job
    dsimp only
    rw [if_neg (by simp [runningUpdate, JobUpdate.empty])]
    rw [hmap]

/-- C10 witness: starting job 1, present and already COMPLETED, on an empty
registry. -/
theorem start_training_unconditional_witness :
    dbLookup (⟨[(1, sampleDoneJob)], [], []⟩ : DBState).jobs 1 = some sampleDoneJob ∧
    dbLookup (TrainingExecutor.start_training oracleNone ⟨[(1, sampleDoneJob)], [], []⟩ [] 1
      99).1.jobs 1
      = some { sampleDoneJob with status := "RUNNING", progress := 0, started_at := some 99 } :=
  ⟨by decide,
    (start_training_unconditional oracleNone ⟨[(1, sampleDoneJob)], [], []⟩ [] 1 99).2.2.2.1
      sampleDoneJob (by decide)⟩

/-! ### C1 — one-directional status transitions -/

/-- C1 counterexample: the claim says no job with a terminal status ever
returns to RUNNING under the exposed operations, yet Start on a COMPLETED
job — permitted, since start_training checks nothing — persists RUNNING
again. -/
theorem terminal_job_restarted_counterexample :
    terminalStatus sampleDoneJob.status = true ∧
    (dbLookup (applyExposed oracleNone ⟨⟨[(1, sampleDoneJob)], [], []⟩, []⟩ 1
        (ExposedOp.startJob 99)).db.jobs 1).map (·.status) = some "RUNNING" :=
  ⟨by decide, by decide⟩

theorem applyExecEffect_storeEval_jobs (o : HookOracle) (id : Nat) (db : DBState)
    (m : String) (b : Option String) (ds : List Nat) (t : Nat) :
    (applyExecEffect o id db (ExecEffect.storeEval m b ds t)).jobs = db.jobs := by
  cases ds <;> rfl

theorem terminal_preserved_sweep_fold (o : HookOracle) (now : Nat)
    (S : List (Nat × JobRow)) :
    ∀ (db : DBState) (j : Nat) (row : JobRow),
      dbLookup db.jobs j = some row → terminalStatus row.status = true →
      ∃ row', dbLookup (S.foldl
          (fun acc p => (update_training_job o acc p.1 (ApiServer.stuckFailUpdate p.2 now)).1)
          db).jobs j = some row' ∧ terminalStatus row'.status = true := by
  induction S with
  | nil => exact fun db j row h ht => ⟨row, h, ht⟩
  | cons p S' ih =>
    intro db j row h ht
    simp only [List.foldl_cons]
    have hlk := update_training_job_lookup o db p.1 (ApiServer.stuckFailUpdate p.2 now) j
    by_cases hj : j = p.1
    · rw [if_pos hj, h] at hlk
      refine ih _ j _ hlk ?_
      rw [applyJobUpdate_status_some _ _ "FAILED" rfl]
      decide
    · rw [if_neg hj] at hlk
      exact ih _ j row (hlk.trans h) ht

/-- C1 amended: among the exposed operations, every operation other than
Start preserves terminality — Stop writes STOPPED, the sweep writes FAILED,
progress updates and thread progress writes leave status alone, thread
completion and failure writes set COMPLETED and FAILED — so a job with a
terminal status never returns to PENDING or RUNNING through them; Start,
however, moves any existing job, terminal or not, back to RUNNING (see the
counterexample). -/
theorem non_start_ops_preserve_terminal (o : HookOracle) (s : SystemState) (id : Nat)
    (op : ExposedOp) (hop : ∀ t, op ≠ ExposedOp.startJob t)
    (j : Nat) (row : JobRow) (hrow : dbLookup s.db.jobs j = some row)
    (hterm : terminalStatus row.status = true) :
    ∃ row', dbLookup (applyExposed o s id op).db.jobs j = some row' ∧
      terminalStatus row'.status = true := by
  cases op with
  | startJob t => exact absurd rfl (hop t)
  | stopJob t =>
    unfold applyExposed TrainingExecutor.stop_training
    dsimp only
    by_cases hreg : registryHas s.reg id
    · rw [if_pos hreg]
      dsimp only
      have hlk := update_training_job_lookup o s.db id (stoppedUpdate t) j
      by_cases hj : j = id
      · rw [if_pos hj, hrow] at hlk
        refine ⟨_, hlk, ?_⟩
        rw [applyJobUpdate_status_some _ _ "STOPPED" rfl]
        decide
      · rw [if_neg hj] at hlk
        exact ⟨row, hlk.trans hrow, hterm⟩
    · rw [if_neg hreg]
      exact ⟨row, hrow, hterm⟩
  | progressPost p =>
    unfold applyExposed
    dsimp only
    have hlk := update_training_job_lookup o s.db id
      { JobUpdate.empty with progress := some p } j
    by_cases hj : j = id
    · rw [if_pos hj, hrow] at hlk
      refine ⟨_, hlk, ?_⟩
      rw [applyJobUpdate_status_none _ _ rfl]
      exact hterm
    · rw [if_neg hj] at hlk
      exact ⟨row, hlk.trans hrow, hterm⟩
  | execWrite e =>
    cases e with
    | stageW w =>
      unfold applyExposed applyExecEffect
      dsimp only
      have hlk := update_training_job_lookup o s.db id w.toUpdate j
      by_cases hj : j = id
      · rw [if_pos hj, hrow] at hlk
        refine ⟨_, hlk, ?_⟩
        cases w with
        | setProgress p =>
          rw [applyJobUpdate_status_none _ _ rfl]
          exact hterm
        | complete t =>
          rw [applyJobUpdate_status_some _ _ "COMPLETED" rfl]
          decide
        | completeWithName t nm =>
          rw [applyJobUpdate_status_some _ _ "COMPLETED" rfl]
          decide
        | fail msg t =>
          rw [applyJobUpdate_status_some _ _ "FAILED" rfl]
          decide
      · rw [if_neg hj] at hlk
        exact ⟨row, hlk.trans hrow, hterm⟩
    | storeEval m b ds t =>
      unfold applyExposed
      dsimp only
      rw [applyExecEffect_storeEval_jobs]
      exact ⟨row, hrow, hterm⟩
  | sweep t =>
    unfold applyExposed ApiServer.detect_stuck_training
    dsimp only
    exact terminal_preserved_sweep_fold o t _ s.db j row hrow hterm

/-- C1 witness: stopping a COMPLETED job whose stale handle is still
registered keeps it terminal. -/
theorem non_start_ops_preserve_terminal_witness :
    (∀ t, ExposedOp.stopJob 77 ≠ ExposedOp.startJob t) ∧
    terminalStatus sampleDoneJob.status = true ∧
    ∃ row', dbLookup (applyExposed oracleNone
        ⟨⟨[(1, sampleDoneJob)], [], []⟩, [(1, ⟨"RUNNING", 3⟩)]⟩ 1
        (ExposedOp.stopJob 77)).db.jobs 1 = some row' ∧
      terminalStatus row'.status = true :=
  ⟨fun _ h => ExposedOp.noConfusion h, by decide,
    non_start_ops_preserve_terminal oracleNone
      ⟨⟨[(1, sampleDoneJob)], [], []⟩, [(1, ⟨"RUNNING", 3⟩)]⟩ 1 (ExposedOp.stopJob 77)
      (fun _ h => ExposedOp.noConfusion h) 1 sampleDoneJob (by decide) (by decide)⟩

/-! ### C5 — handle cleanup on execution exit -/

/-- The end state of starting job 1 and letting its adapter-tuning run
complete successfully, thread writes applied in order. -/
def completedRunState : SystemState :=
  (TrainingExecutor.execute_training sampleLoraJob ragOK loraOK 500).foldl
    (fun st e => applyExposed oracleNone st 1 (ExposedOp.execWrite e))
    (applyExposed oracleNone ⟨⟨[(1, sampleLoraJob)], [], []⟩, []⟩ 1 (ExposedOp.startJob 10))

/-- C5 counterexample: the claim says the handle is removed from the
registry when the execution exits on any path, yet after a successful run
the job is COMPLETED while its RunningJobHandle is still registered —
neither executor's thread ever touches running_jobs. -/
theorem handle_left_after_completion_counterexample :
    (dbLookup completedRunState.db.jobs 1).map (·.status) = some "COMPLETED" ∧
    registryHas completedRunState.reg 1 = true ∧
    registryLookup completedRunState.reg 1 = some ⟨"RUNNING", 10⟩ :=
  ⟨by decide, by decide, by decide⟩

theorem registry_unchanged_by_effects (o : HookOracle) (id : Nat) (effs : List ExecEffect) :
    ∀ st : SystemState,
      (effs.foldl (fun st e => applyExposed o st id (ExposedOp.execWrite e)) st).reg = st.reg := by
  induction effs with
  | nil => exact fun st => rfl
  | cons e effs ih =>
    intro st
    simp only [List.foldl_cons]
    rw [ih]
    rfl

/-- C5 amended: the training thread never touches the in-memory registry —
applying any sequence of thread effects leaves the registry component of the
state unchanged — so after Start the RunningJobHandle is still registered
once the run has finished, on every exit path of either executor class
(success, stage failure, unsupported type, any oracle outcomes); the handle
is removed only by stop_training. -/
theorem handle_survives_execution (o : HookOracle) (db : DBState) (reg : Registry)
    (id now tnow : Nat) (job : JobRow) (orag : TrainingExecutor.RagStageOracle)
    (olora : TrainingExecutor.LoraStageOracle) :
    registryLookup ((TrainingExecutor.execute_training job orag olora tnow).foldl
        (fun st e => applyExposed o st id (ExposedOp.execWrite e))
        (applyExposed o ⟨db, reg⟩ id (ExposedOp.startJob now))).reg id
      = some ⟨"RUNNING", now⟩ ∧
    registryLookup ((RagTrainingExecutor.execute_training job orag olora tnow).foldl
        (fun st e => applyExposed o st id (ExposedOp.execWrite e))
        (applyExposed o ⟨db, reg⟩ id (ExposedOp.startJob now))).reg id
      = some ⟨"RUNNING", now⟩ ∧
    (TrainingExecutor.stop_training o db (registryInsert reg id ⟨"RUNNING", now⟩) id
        tnow).2.1 = registryRemove (registryInsert reg id ⟨"RUNNING", now⟩) id := by
  refine ⟨?_, ?_, ?_⟩
  · rw [registry_unchanged_by_effects]
    exact registryLookup_insert reg id _
  · rw [registry_unchanged_by_effects]
    exact registryLookup_insert reg id _
  · unfold TrainingExecutor.stop_training
    rw [if_pos (registryHas_insert reg id _)]

/-! ### C2 — dataset conversion and the 80/20 split -/

theorem convert_length_eq_filter (raw : List RawSample) :
    (TrainingExecutor.convert_dataset_to_lora_format raw).length
      = (raw.filter TrainingExecutor.keepSample).length := by
  induction raw with
  | nil => rfl
  | cons a t ih =>
    unfold TrainingExecutor.convert_dataset_to_lora_format at ih ⊢
    rw [List.filterMap_cons, List.filter_cons]
    cases hb : TrainingExecutor.keepSample a <;> simp [hb, ih]

/-- C2: for every raw record list, the produced training plus validation
partitions concatenate to exactly the converted sample list — the N records
from which an instruction or output is derivable survive in their original
order and the unconvertible ones are dropped — and the training partition
has size floor(0.8 N): the slice bound -len(samples)//5 is minus the
ceiling of N/5, so the training part keeps the first N minus ceil(N/5),
which is floor(4N/5), and the validation part the remaining ceil(N/5). -/
theorem dataset_split_spec (raw : List RawSample) :
    (TrainingExecutor.prepare_split (TrainingExecutor.convert_dataset_to_lora_format raw)).1
        ++ (TrainingExecutor.prepare_split
          (TrainingExecutor.convert_dataset_to_lora_format raw)).2
      = TrainingExecutor.convert_dataset_to_lora_format raw ∧
    (TrainingExecutor.convert_dataset_to_lora_format raw).length
      = (raw.filter TrainingExecutor.keepSample).length ∧
    (TrainingExecutor.prepare_split (TrainingExecutor.convert_dataset_to_lora_format raw)).1.length
      = 4 * (TrainingExecutor.convert_dataset_to_lora_format raw).length / 5 ∧
    (TrainingExecutor.prepare_split (TrainingExecutor.convert_dataset_to_lora_format raw)).2.length
      = (TrainingExecutor.convert_dataset_to_lora_format raw).length
        - 4 * (TrainingExecutor.convert_dataset_to_lora_format raw).length / 5 := by
  set s := TrainingExecutor.convert_dataset_to_lora_format raw with hs
  refine ⟨?_, convert_length_eq_filter raw, ?_, ?_⟩
  · unfold TrainingExecutor.prepare_split pySliceDropLast pySliceTakeLast
    exact List.take_append_drop _ s
  · unfold TrainingExecutor.prepare_split pySliceDropLast
    rw [List.length_take]
    omega
  · unfold TrainingExecutor.prepare_split pySliceTakeLast
    rw [List.length_drop]
    omega

/-! ### C3 — the stuck-job sweep -/

/-- A running adapter-tuning job as the creation endpoint stores it: the
training_type is the lower-case string lora, progress 0.3, started at
time 0. -/
def lowercaseLoraJob : JobRow :=
  ⟨"J", some "qwen2.5:7b", some "j:latest", "RUNNING", "lora",
    mkRat 3 10, some 0, none, none, none, sampleCfg⟩

/-- C3 counterexample: an adapter-tuning job stored with training_type lora
(the spelling the creation endpoint writes), running for only fifteen
minutes with progress 0.3, is below the claimed thirty-minute timeout for
AdapterTuning jobs — yet the sweep marks it FAILED, because the code
compares the training type against the exact string LoRA and so gives this
job the ten-minute timeout of the other branch. -/
theorem stuck_timeout_counterexample :
    lowercaseLoraJob.training_type = "lora" ∧
    lowercaseLoraJob.status = "RUNNING" ∧
    ¬ ((30 : ℤ) * 60 < (900 : ℤ) - 0) ∧
    (ApiServer.detect_stuck_training oracleNone ⟨[(1, lowercaseLoraJob)], [], []⟩ 900).2
      = [1] ∧
    (dbLookup (ApiServer.detect_stuck_training oracleNone ⟨[(1, lowercaseLoraJob)], [], []⟩
        900).1.jobs 1).map (·.status) = some "FAILED" :=
  ⟨rfl, rfl, by decide, by decide, by decide⟩

theorem sweep_fold_jobs (o : HookOracle) (now : Nat) (S : List (Nat × JobRow)) :
    ∀ db : DBState,
      (S.foldl (fun acc p =>
          (update_training_job o acc p.1 (ApiServer.stuckFailUpdate p.2 now)).1) db).jobs
        = S.foldl (fun js p => js.map (fun q =>
            if q.1 = p.1 then (q.1, applyJobUpdate q.2 (ApiServer.stuckFailUpdate p.2 now))
            else q)) db.jobs := by
  induction S with
  | nil => exact fun db => rfl
  | cons p S' ih =>
    intro db
    simp only [List.foldl_cons]
    rw [ih, update_training_job_jobs]

theorem sweep_fold_skip (now : Nat) (S : List (Nat × JobRow)) (x : Nat × JobRow)
    (h : ∀ p ∈ S, p.1 ≠ x.1) :
    S.foldl (fun x p =>
        if x.1 = p.1 then (x.1, applyJobUpdate x.2 (ApiServer.stuckFailUpdate p.2 now))
        else x) x = x := by
  induction S with
  | nil => rfl
  | cons p S' ih =>
    simp only [List.foldl_cons]
    rw [if_neg (fun hc => h p (List.mem_cons_self p S') hc.symm)]
    exact ih (fun r hr => h r (List.mem_cons_of_mem p hr))

theorem sweep_point_fold (now : Nat) (S : List (Nat × JobRow)) (q : Nat × JobRow)
    (hnd : (S.map Prod.fst).Nodup) (huniq : ∀ p ∈ S, p.1 = q.1 → p = q) :
    S.foldl (fun x p =>
        if x.1 = p.1 then (x.1, applyJobUpdate x.2 (ApiServer.stuckFailUpdate p.2 now))
        else x) q
      = if q ∈ S then (q.1, applyJobUpdate q.2 (ApiServer.stuckFailUpdate q.2 now)) else q := by
  induction S with
  | nil => simp
  | cons p S' ih =>
    simp only [List.foldl_cons]
    by_cases hp : p.1 = q.1
    · have hpq : p = q := huniq p (List.mem_cons_self p S') hp
      subst hpq
      rw [if_pos rfl]
      have hkeys : ∀ r ∈ S', r.1 ≠ p.1 := by
        intro r hr hc
        have : p.1 ∈ S'.map Prod.fst := hc ▸ List.mem_map_of_mem Prod.fst hr
        exact (List.nodup_cons.mp (by simpa using hnd)).1 this
      rw [sweep_fold_skip now S'
        (p.1, applyJobUpdate p.2 (ApiServer.stuckFailUpdate p.2 now))
        (fun r hr => hkeys r hr)]
      rw [if_pos (List.mem_cons_self p S')]
    · have hqp : q ≠ p := fun h => hp (h ▸ rfl)
      rw [if_neg (fun hc : q.1 = p.1 => hp hc.symm)]
      rw [ih (List.Nodup.of_cons (by simpa using hnd))
        (fun r hr he => huniq r (List.mem_cons_of_mem p hr) he)]
      by_cases hq : q ∈ S'
      · rw [if_pos hq, if_pos (List.mem_cons_of_mem p hq)]
      · rw [if_neg hq, if_neg (fun hm => by
          rcases List.mem_cons.mp hm with h1 | h2
          · exact hqp h1
          · exact hq h2)]

theorem sweep_map_comm (now : Nat) (S : List (Nat × JobRow)) :
    ∀ js : List (Nat × JobRow),
      S.foldl (fun js p => js.map (fun q =>
          if q.1 = p.1 then (q.1, applyJobUpdate q.2 (ApiServer.stuckFailUpdate p.2 now))
          else q)) js
        = js.map (fun q => S.foldl (fun x p =>
            if x.1 = p.1 then (x.1, applyJobUpdate x.2 (ApiServer.stuckFailUpdate p.2 now))
            else x) q) := by
  induction S with
  | nil =>
    intro js
    simp only [List.foldl_nil]
    exact (List.map_id' js).symm
  | cons p S' ih =>
    intro js
    simp only [List.foldl_cons]
    rw [ih, List.map_map]
    rfl

/-- C3 amended: the sweep marks a job FAILED (with the stuck message
encoding elapsed minutes and last-seen progress) if and only if its status
is RUNNING, its started timestamp is set, its progress is below 0.5, and
elapsed time strictly exceeds the type-specific timeout — which is thirty
minutes only when the stored training_type is the exact string LoRA, and
ten minutes for every other stored value, including the lower-case lora the
creation endpoint writes for adapter-tuning jobs and rag; all other jobs
are left untouched. -/
theorem stuck_sweep_spec (o : HookOracle) (db : DBState) (now : Nat)
    (hnd : (db.jobs.map Prod.fst).Nodup) :
    (ApiServer.detect_stuck_training o db now).1.jobs
      = db.jobs.map (fun p => if ApiServer.isStuck p.2 now
          then (p.1, applyJobUpdate p.2 (ApiServer.stuckFailUpdate p.2 now)) else p) ∧
    (ApiServer.detect_stuck_training o db now).2
      = (db.jobs.filter (fun p => ApiServer.isStuck p.2 now)).map Prod.fst ∧
    (∀ j : JobRow, ApiServer.isStuck j now = true ↔
      (j.status = "RUNNING" ∧ ∃ s, j.started_at = some s ∧
        ((if j.training_type = "LoRA" then (30 : ℤ) else 10) * 60 < (now : ℤ) - (s : ℤ)) ∧
        j.progress < mkRat 1 2)) ∧
    (∀ j : JobRow, (ApiServer.stuckFailUpdate j now).status = some "FAILED" ∧
      (ApiServer.stuckFailUpdate j now).error_message
        = some (ApiServer.stuckMessage
            (ApiServer.elapsedMinutes (j.started_at.getD 0) now) j.progress)) := by
  refine ⟨?_, rfl, ?_, fun j => ⟨rfl, rfl⟩⟩
  · unfold ApiServer.detect_stuck_training
    dsimp only
    rw [sweep_fold_jobs, sweep_map_comm]
    apply List.map_congr_left
    intro q hq
    set S := db.jobs.filter (fun p => ApiServer.isStuck p.2 now) with hS
    have hsub : ∀ p ∈ S, p ∈ db.jobs := fun p hp => List.mem_of_mem_filter hp
    have hndS : (S.map Prod.fst).Nodup :=
      List.Nodup.sublist (List.Sublist.map Prod.fst (List.filter_sublist db.jobs)) hnd
    have huniq : ∀ p ∈ S, p.1 = q.1 → p = q := by
      intro p hp he
      exact List.inj_on_of_nodup_map hnd (hsub p hp) hq he
    rw [sweep_point_fold now S q hndS huniq]
    by_cases hst : ApiServer.isStuck q.2 now
    · rw [if_pos (List.mem_filter.mpr ⟨hq, hst⟩), if_pos hst]
    · have hqS : q ∉ S := fun hm => hst (by simpa using (List.mem_filter.mp hm).2)
      rw [if_neg hqS, if_neg hst]
  · intro j
    unfold ApiServer.isStuck ApiServer.stuckTimeoutMinutes
    cases hsa : j.started_at with
    | none => simp [hsa]
    | some s =>
      by_cases ht : j.training_type = "LoRA" <;> simp [hsa, ht, and_assoc]

/-- C3 witness: a store holding the claim's three scenario jobs — started 31
minutes ago with progress 0.3, the same with progress 0.6, and started 5
minutes ago — has distinct ids, so the amended characterization applies. -/
theorem stuck_sweep_spec_witness :
    ((([(1, lowercaseLoraJob),
        (2, { lowercaseLoraJob with progress := mkRat 6 10 }),
        (3, { lowercaseLoraJob with started_at := some 1560 })] : List (Nat × JobRow)).map
          Prod.fst).Nodup) ∧
    (ApiServer.detect_stuck_training oracleNone
      ⟨[(1, lowercaseLoraJob),
        (2, { lowercaseLoraJob with progress := mkRat 6 10 }),
        (3, { lowercaseLoraJob with started_at := some 1560 })], [], []⟩ 1860).2
      = ([(1, lowercaseLoraJob),
          (2, { lowercaseLoraJob with progress := mkRat 6 10 }),
          (3, { lowercaseLoraJob with started_at := some 1560 })].filter
            (fun p => ApiServer.isStuck p.2 1860)).map Prod.fst :=
  ⟨by decide,
    (stuck_sweep_spec oracleNone
      ⟨[(1, lowercaseLoraJob),
        (2, { lowercaseLoraJob with progress := mkRat 6 10 }),
        (3, { lowercaseLoraJob with started_at := some 1560 })], [], []⟩ 1860
      (by decide)).2.1⟩

/-! ### C4 — best-effort deletion cleanup -/

/-- C4: deleting a COMPLETED knowledge-augmentation job (stored
training_type rag, truthy model name) attempts, for every combination of
external outcomes including exceptions, all three resource removals — the
knowledge-store collection, the model artifact with its directory, and the
training-data directory — and records at least one outcome string per step
(the report is the concatenation of the three steps' nonempty reports); the
persistence delete is the last external interaction, and the reported
success holds exactly when that delete returns true. -/
theorem deletion_cleanup_best_effort (job : JobRow) (id : Nat)
    (hty : job.training_type = "rag") (hst : job.status = "COMPLETED")
    (hmn : strFalsy job.model_name = false) (o : ApiServer.CleanupOracle) :
    ∃ r1 r2 r3 : List String,
      (ApiServer.delete_training_job job id o).cleanup_results = r1 ++ r2 ++ r3 ∧
      r1 ≠ [] ∧ r2 ≠ [] ∧ r3 ≠ [] ∧
      ApiServer.CleanupEffect.chromaDelete ("knowledge_base_job_" ++ toString id)
        ∈ (ApiServer.delete_training_job job id o).effects ∧
      ApiServer.CleanupEffect.modelDirCleanup
          ("models/" ++ ApiServer.underscoreName (job.model_name.getD ""))
        ∈ (ApiServer.delete_training_job job id o).effects ∧
      ApiServer.CleanupEffect.trainDirCleanup ("training_data/job_" ++ toString id)
        ∈ (ApiServer.delete_training_job job id o).effects ∧
      (ApiServer.delete_training_job job id o).effects.getLast?
        = some (ApiServer.CleanupEffect.dbDeleteJob id) ∧
      ((ApiServer.delete_training_job job id o).success = true ↔
        o.dbDelete = Except.ok true) := by
  obtain ⟨oc, om, oo, ot, od⟩ := o
  unfold ApiServer.delete_training_job
  simp only [hty, hst, hmn]
  norm_num only
  refine ⟨_, _, _, rfl, ?_, ?_, ?_, ?_, ?_, ?_, ?_, ?_⟩
  · rcases oc with e | b
    · simp
    · cases b <;> simp
  · rcases om with e | b
    · simp
    · cases b <;> simp
  · rcases ot with e | b
    · simp
    · cases b <;> simp
  · rcases om with e | b <;> simp
  · rcases om with e | b <;> simp
  · rcases om with e | b <;> simp
  · rcases om with e | b <;> rw [List.getLast?_concat]
  · rcases od with e | b
    · simp
    · cases b <;> simp

/-- C4 witness: the sample COMPLETED rag job, with every cleanup step
raising and the persistence delete succeeding. -/
theorem deletion_cleanup_best_effort_witness :
    ({ sampleRagJob with status := "COMPLETED" } : JobRow).training_type = "rag" ∧
    strFalsy ({ sampleRagJob with status := "COMPLETED" } : JobRow).model_name = false ∧
    ∃ r1 r2 r3 : List String,
      (ApiServer.delete_training_job { sampleRagJob with status := "COMPLETED" } 1
          ⟨Except.error "x", Except.error "y", Except.error "z", Except.error "w",
            Except.ok true⟩).cleanup_results = r1 ++ r2 ++ r3 ∧
      r1 ≠ [] ∧ r2 ≠ [] ∧ r3 ≠ [] ∧
      ApiServer.CleanupEffect.chromaDelete ("knowledge_base_job_" ++ toString 1)
        ∈ (ApiServer.delete_training_job { sampleRagJob with status := "COMPLETED" } 1
          ⟨Except.error "x", Except.error "y", Except.error "z", Except.error "w",
            Except.ok true⟩).effects ∧
      ApiServer.CleanupEffect.modelDirCleanup
          ("models/" ++ ApiServer.underscoreName
            (({ sampleRagJob with status := "COMPLETED" } : JobRow).model_name.getD ""))
        ∈ (ApiServer.delete_training_job { sampleRagJob with status := "COMPLETED" } 1
          ⟨Except.error "x", Except.error "y", Except.error "z", Except.error "w",
            Except.ok true⟩).effects ∧
      ApiServer.CleanupEffect.trainDirCleanup ("training_data/job_" ++ toString 1)
        ∈ (ApiServer.delete_training_job { sampleRagJob with status := "COMPLETED" } 1
          ⟨Except.error "x", Except.error "y", Except.error "z", Except.error "w",
            Except.ok true⟩).effects ∧
      (ApiServer.delete_training_job { sampleRagJob with status := "COMPLETED" } 1
          ⟨Except.error "x", Except.error "y", Except.error "z", Except.error "w",
            Except.ok true⟩).effects.getLast?
        = some (ApiServer.CleanupEffect.dbDeleteJob 1) ∧
      ((ApiServer.delete_training_job { sampleRagJob with status := "COMPLETED" } 1
          ⟨Except.error "x", Except.error "y", Except.error "z", Except.error "w",
            Except.ok true⟩).success = true ↔
        (Except.ok true : Except String Bool) = Except.ok true) :=
  ⟨by decide, by decide,
    deletion_cleanup_best_effort { sampleRagJob with status := "COMPLETED" } 1
      (by decide) (by decide) (by decide)
      ⟨Except.error "x", Except.error "y", Except.error "z", Except.error "w",
        Except.ok true⟩⟩

/-! ### C6 — cooperative cancellation is absent -/

theorem applyJobUpdate_status (j : JobRow) (u : JobUpdate) :
    (applyJobUpdate j u).status = u.status.getD j.status := rfl

/-- The status contributed by one thread effect: a job-row write carries its
update's status key, the mock-evaluation insert carries none. -/
def effectStatus (e : ExecEffect) : Option String :=
  match e with
  | .stageW w => w.toUpdate.status
  | .storeEval _ _ _ _ => none

theorem status_after_effects (o : HookOracle) (id : Nat) (effs : List ExecEffect) :
    ∀ (db : DBState) (row : JobRow), dbLookup db.jobs id = some row →
      ∃ row', dbLookup (applyExecEffects o id db effs).jobs id = some row' ∧
        row'.status = effs.foldl (fun st e => (effectStatus e).getD st) row.status := by
  induction effs with
  | nil => exact fun db row h => ⟨row, h, rfl⟩
  | cons e t ih =>
    intro db row h
    cases e with
    | stageW w =>
      have hlk := update_training_job_lookup o db id w.toUpdate id
      rw [if_pos rfl, h] at hlk
      obtain ⟨row', h1, h2⟩ :=
        ih (applyExecEffect o id db (ExecEffect.stageW w)) (applyJobUpdate row w.toUpdate) hlk
      refine ⟨row', h1, ?_⟩
      rw [h2, applyJobUpdate_status]
      rfl
    | storeEval m b ds tm =>
      have hlk : dbLookup (applyExecEffect o id db (ExecEffect.storeEval m b ds tm)).jobs id
          = some row := by
        rw [applyExecEffect_storeEval_jobs]
        exact h
      obtain ⟨row', h1, h2⟩ := ih _ row hlk
      exact ⟨row', h1, h2⟩

/-- The effect list of a successful knowledge-augmentation run of the rag
executor, written out. -/
theorem rag_exec_success_effects (job : JobRow) (olora : TrainingExecutor.LoraStageOracle)
    (tnow : Nat) (hty : lowerString job.training_type = "rag") :
    RagTrainingExecutor.execute_training job ⟨none, none, none⟩ olora tnow
      = [ExecEffect.stageW (StageWrite.setProgress (mkRat 1 10)),
         ExecEffect.stageW (StageWrite.setProgress (mkRat 3 10)),
         ExecEffect.stageW (StageWrite.setProgress (mkRat 6 10)),
         ExecEffect.stageW (StageWrite.setProgress (mkRat 9 10)),
         ExecEffect.stageW (StageWrite.completeWithName tnow
           (RagTrainingExecutor.create_ollama_model_name job.name)),
         ExecEffect.storeEval (RagTrainingExecutor.create_ollama_model_name job.name)
           job.base_model job.config.selectedDatasets tnow] := by
  unfold RagTrainingExecutor.execute_training RagTrainingExecutor.rag_writes
  rw [if_pos hty]
  simp [ite_self]

/-- Four concrete states telling the C6 story on the sample rag job: the
run's first two writes, a Stop that persists STOPPED, and the thread's
remaining writes. -/
def ragRunPrefixDb : DBState :=
  applyExecEffects oracleNone 1 ⟨[(1, sampleRagJob)], [], []⟩
    ((RagTrainingExecutor.execute_training sampleRagJob ragOK loraOK 500).take 2)

/-- The state right after Stop persisted STOPPED mid-run. -/
def stoppedMidRunDb : DBState :=
  (TrainingExecutor.stop_training oracleNone ragRunPrefixDb [(1, ⟨"RUNNING", 0⟩)] 1 123).1

/-- The state after the un-cancelled thread performed its remaining writes. -/
def resumedRunDb : DBState :=
  applyExecEffects oracleNone 1 stoppedMidRunDb
    ((RagTrainingExecutor.execute_training sampleRagJob ragOK loraOK 500).drop 2)

/-- C6 counterexample: Stop persists STOPPED for the active sample rag job,
but the execution never re-reads the persisted status — its remaining
writes run unconditionally and the final COMPLETED update overwrites the
STOPPED status. -/
theorem stop_overwritten_counterexample :
    (dbLookup stoppedMidRunDb.jobs 1).map (·.status) = some "STOPPED" ∧
    (dbLookup resumedRunDb.jobs 1).map (·.status) = some "COMPLETED" ∧
    (dbLookup resumedRunDb.jobs 1).map (·.status) ≠ some "STOPPED" :=
  ⟨by decide, by decide, by decide⟩

/-- C6 amended: the execution does not observe a Stop at stage boundaries —
no persisted-status re-read exists.  For every split of a successful rag
run's write sequence around a Stop, provided the completion write is still
ahead, the status right after Stop is STOPPED and yet the final status is
COMPLETED: every remaining write runs and the last status write wins. -/
theorem stop_not_observed_by_execution (o : HookOracle) (db : DBState) (reg : Registry)
    (id tnow tstop : Nat) (job row : JobRow) (olora : TrainingExecutor.LoraStageOracle)
    (A B : List ExecEffect)
    (hty : lowerString job.training_type = "rag")
    (hsplit : A ++ B = RagTrainingExecutor.execute_training job ⟨none, none, none⟩ olora tnow)
    (hmem : ExecEffect.stageW (StageWrite.completeWithName tnow
        (RagTrainingExecutor.create_ollama_model_name job.name)) ∈ B)
    (hrow : dbLookup db.jobs id = some row)
    (hreg : registryHas reg id = true) :
    (∃ rowStop, dbLookup (TrainingExecutor.stop_training o (applyExecEffects o id db A) reg
        id tstop).1.jobs id = some rowStop ∧ rowStop.status = "STOPPED") ∧
    (∃ rowEnd, dbLookup (applyExecEffects o id
        (TrainingExecutor.stop_training o (applyExecEffects o id db A) reg id tstop).1
        B).jobs id = some rowEnd ∧ rowEnd.status = "COMPLETED") := by
  obtain ⟨rowA, hA, _⟩ := status_after_effects o id A db row hrow
  have hstopdb : (TrainingExecutor.stop_training o (applyExecEffects o id db A) reg
      id tstop).1 = (update_training_job o (applyExecEffects o id db A) id
        (stoppedUpdate tstop)).1 := by
    unfold TrainingExecutor.stop_training
    rw [if_pos hreg]
  have hlkStop : dbLookup (TrainingExecutor.stop_training o (applyExecEffects o id db A) reg
      id tstop).1.jobs id = some (applyJobUpdate rowA (stoppedUpdate tstop)) := by
    rw [hstopdb]
    have h := update_training_job_lookup o (applyExecEffects o id db A) id
      (stoppedUpdate tstop) id
    rw [if_pos rfl, hA] at h
    exact h
  have hStopStatus : (applyJobUpdate rowA (stoppedUpdate tstop)).status = "STOPPED" := rfl
  refine ⟨⟨_, hlkStop, hStopStatus⟩, ?_⟩
  obtain ⟨rowEnd, hEnd, hEndStatus⟩ :=
    status_after_effects o id B _ _ hlkStop
  refine ⟨rowEnd, hEnd, ?_⟩
  rw [hEndStatus, hStopStatus]
  have hsuf : B <:+ RagTrainingExecutor.execute_training job ⟨none, none, none⟩ olora tnow :=
    ⟨A, hsplit⟩
  rw [rag_exec_success_effects job olora tnow hty] at hsuf
  rw [List.suffix_cons_iff] at hsuf
  rcases hsuf with hB | hsuf
  · subst hB
    rfl
  rw [List.suffix_cons_iff] at hsuf
  rcases hsuf with hB | hsuf
  · subst hB
    rfl
  rw [List.suffix_cons_iff] at hsuf
  rcases hsuf with hB | hsuf
  · subst hB
    rfl
  rw [List.suffix_cons_iff] at hsuf
  rcases hsuf with hB | hsuf
  · subst hB
    rfl
  rw [List.suffix_cons_iff] at hsuf
  rcases hsuf with hB | hsuf
  · subst hB
    rfl
  rw [List.suffix_cons_iff] at hsuf
  rcases hsuf with hB | hsuf
  · subst hB
    simp at hmem
  · rw [List.suffix_nil] at hsuf
    subst hsuf
    simp at hmem

/-- C6 witness: the sample rag job, stop inserted after the first two
writes. -/
theorem stop_not_observed_by_execution_witness :
    lowerString sampleRagJob.training_type = "rag" ∧
    ((RagTrainingExecutor.execute_training sampleRagJob ⟨none, none, none⟩ loraOK 500).take 2)
        ++ ((RagTrainingExecutor.execute_training sampleRagJob ⟨none, none, none⟩ loraOK
          500).drop 2)
      = RagTrainingExecutor.execute_training sampleRagJob ⟨none, none, none⟩ loraOK 500 ∧
    ((∃ rowStop, dbLookup (TrainingExecutor.stop_training oracleNone
        (applyExecEffects oracleNone 1 ⟨[(1, sampleRagJob)], [], []⟩
          ((RagTrainingExecutor.execute_training sampleRagJob ⟨none, none, none⟩ loraOK
            500).take 2)) [(1, ⟨"RUNNING", 0⟩)] 1 123).1.jobs 1 = some rowStop ∧
        rowStop.status = "STOPPED") ∧
      (∃ rowEnd, dbLookup (applyExecEffects oracleNone 1
          (TrainingExecutor.stop_training oracleNone
            (applyExecEffects oracleNone 1 ⟨[(1, sampleRagJob)], [], []⟩
              ((RagTrainingExecutor.execute_training sampleRagJob ⟨none, none, none⟩ loraOK
                500).take 2)) [(1, ⟨"RUNNING", 0⟩)] 1 123).1
          ((RagTrainingExecutor.execute_training sampleRagJob ⟨none, none, none⟩ loraOK
            500).drop 2)).jobs 1 = some rowEnd ∧ rowEnd.status = "COMPLETED")) :=
  ⟨by decide, List.take_append_drop 2 _,
    stop_not_observed_by_execution oracleNone ⟨[(1, sampleRagJob)], [], []⟩
      [(1, ⟨"RUNNING", 0⟩)] 1 500 123 sampleRagJob sampleRagJob loraOK _ _
      (by decide) (List.take_append_drop 2 _) (by decide) (by decide) (by decide)⟩

/-! ### C7 — resolved artifact name on completion -/

/-- The actual-model-name contributed by one thread effect. -/
def effectActualName (e : ExecEffect) : Option String :=
  match e with
  | .stageW w => w.toUpdate.actual_model_name
  | .storeEval _ _ _ _ => none

theorem actualName_after_effects (o : HookOracle) (id : Nat) (effs : List ExecEffect) :
    ∀ (db : DBState) (row : JobRow), dbLookup db.jobs id = some row →
      ∃ row', dbLookup (applyExecEffects o id db effs).jobs id = some row' ∧
        row'.status = effs.foldl (fun st e => (effectStatus e).getD st) row.status ∧
        row'.actual_model_name = effs.foldl
          (fun acc e => ((effectActualName e).map some).getD acc) row.actual_model_name := by
  induction effs with
  | nil => exact fun db row h => ⟨row, h, rfl, rfl⟩
  | cons e t ih =>
    intro db row h
    cases e with
    | stageW w =>
      have hlk := update_training_job_lookup o db id w.toUpdate id
      rw [if_pos rfl, h] at hlk
      obtain ⟨row', h1, h2, h3⟩ :=
        ih (applyExecEffect o id db (ExecEffect.stageW w)) (applyJobUpdate row w.toUpdate) hlk
      exact ⟨row', h1, by rw [h2]; rfl, by rw [h3]; rfl⟩
    | storeEval m b ds tm =>
      have hlk : dbLookup (applyExecEffect o id db (ExecEffect.storeEval m b ds tm)).jobs id
          = some row := by
        rw [applyExecEffect_storeEval_jobs]
        exact h
      obtain ⟨row', h1, h2, h3⟩ := ih _ row hlk
      exact ⟨row', h1, h2, h3⟩

/-- The effect list of a successful adapter-tuning run of the rag executor,
written out: four progress writes and a COMPLETED update that carries no
actual model name. -/
theorem lora_exec_success_effects (job : JobRow) (orag : TrainingExecutor.RagStageOracle)
    (tnow : Nat) (hty : lowerString job.training_type = "lora") :
    RagTrainingExecutor.execute_training job orag ⟨none, none, none⟩ tnow
      = [ExecEffect.stageW (StageWrite.setProgress (mkRat 1 10)),
         ExecEffect.stageW (StageWrite.setProgress (mkRat 2 10)),
         ExecEffect.stageW (StageWrite.setProgress (mkRat 8 10)),
         ExecEffect.stageW (StageWrite.setProgress (mkRat 95 100)),
         ExecEffect.stageW (StageWrite.complete tnow)] := by
  unfold RagTrainingExecutor.execute_training RagTrainingExecutor.lora_writes
  rw [if_neg (show ¬ lowerString job.training_type = "rag" by rw [hty]; decide), if_pos hty]
  rfl

theorem create_ollama_model_name_ne_empty (s : String) :
    RagTrainingExecutor.create_ollama_model_name s ≠ "" := by
  unfold RagTrainingExecutor.create_ollama_model_name
  split
  · intro h
    have hlen := congrArg String.length h
    rw [String.length_append, String.length_append] at hlen
    simp only [show (":" : String).length = 1 from rfl,
      show ("" : String).length = 0 from rfl] at hlen
    omega
  · intro h
    have hlen := congrArg String.length h
    rw [String.length_append] at hlen
    simp only [show (":latest" : String).length = 7 from rfl,
      show ("" : String).length = 0 from rfl] at hlen
    omega

/-- C7 counterexample: an adapter-tuning job that completes successfully is
persisted COMPLETED with no actual model name — neither executor's lora
path ever writes the actual_model_name column — so the claim fails for
AdapterTuning jobs. -/
theorem completed_without_artifact_name_counterexample :
    (dbLookup (applyExecEffects oracleNone 1 ⟨[(1, sampleLoraJob)], [], []⟩
        (RagTrainingExecutor.execute_training sampleLoraJob ragOK loraOK 500)).jobs 1).map
        (·.status) = some "COMPLETED" ∧
    (dbLookup (applyExecEffects oracleNone 1 ⟨[(1, sampleLoraJob)], [], []⟩
        (RagTrainingExecutor.execute_training sampleLoraJob ragOK loraOK 500)).jobs 1).map
        (·.actual_model_name) = some none :=
  ⟨by decide, by decide⟩

/-- C7 amended: only knowledge-augmentation jobs completing through the rag
executor get a resolved artifact name: such a run persists COMPLETED with
actual_model_name set to the non-empty name the model-creation step
returned, while a successful adapter-tuning run persists COMPLETED leaving
actual_model_name exactly as it was (never set anywhere, hence absent). -/
theorem completion_artifact_name (o : HookOracle) (db : DBState) (id tnow : Nat)
    (job row : JobRow) (olora : TrainingExecutor.LoraStageOracle)
    (orag : TrainingExecutor.RagStageOracle)
    (hrow : dbLookup db.jobs id = some row) :
    (lowerString job.training_type = "rag" →
      ∃ row', dbLookup (applyExecEffects o id db
          (RagTrainingExecutor.execute_training job ⟨none, none, none⟩ olora tnow)).jobs id
        = some row' ∧ row'.status = "COMPLETED" ∧
        row'.actual_model_name
          = some (RagTrainingExecutor.create_ollama_model_name job.name) ∧
        RagTrainingExecutor.create_ollama_model_name job.name ≠ "") ∧
    (lowerString job.training_type = "lora" →
      ∃ row', dbLookup (applyExecEffects o id db
          (RagTrainingExecutor.execute_training job orag ⟨none, none, none⟩ tnow)).jobs id
        = some row' ∧ row'.status = "COMPLETED" ∧
        row'.actual_model_name = row.actual_model_name) := by
  constructor
  · intro hty
    rw [rag_exec_success_effects job olora tnow hty]
    obtain ⟨row', h1, h2, h3⟩ := actualName_after_effects o id _ db row hrow
    exact ⟨row', h1, by rw [h2]; rfl, by rw [h3]; rfl,
      create_ollama_model_name_ne_empty job.name⟩
  · intro hty
    rw [lora_exec_success_effects job orag tnow hty]
    obtain ⟨row', h1, h2, h3⟩ := actualName_after_effects o id _ db row hrow
    exact ⟨row', h1, by rw [h2]; rfl, by rw [h3]; rfl⟩

/-- C7 witness: the sample rag job run to completion carries the sanitized
non-empty name; the sample lora job keeps its absent name. -/
theorem completion_artifact_name_witness :
    ((lowerString sampleRagJob.training_type = "rag" →
      ∃ row', dbLookup (applyExecEffects oracleNone 1
          ⟨[(1, sampleRagJob)], [], []⟩
          (RagTrainingExecutor.execute_training sampleRagJob ⟨none, none, none⟩ loraOK
            500)).jobs 1
        = some row' ∧ row'.status = "COMPLETED" ∧
        row'.actual_model_name
          = some (RagTrainingExecutor.create_ollama_model_name sampleRagJob.name) ∧
        RagTrainingExecutor.create_ollama_model_name sampleRagJob.name ≠ "") ∧
    (lowerString sampleRagJob.training_type = "lora" →
      ∃ row', dbLookup (applyExecEffects oracleNone 1
          ⟨[(1, sampleRagJob)], [], []⟩
          (RagTrainingExecutor.execute_training sampleRagJob ragOK ⟨none, none, none⟩
            500)).jobs 1
        = some row' ∧ row'.status = "COMPLETED" ∧
        row'.actual_model_name = sampleRagJob.actual_model_name)) :=
  completion_artifact_name oracleNone ⟨[(1, sampleRagJob)], [], []⟩ 1 500 sampleRagJob
    sampleRagJob loraOK ragOK (by decide)

/-! ### C8 — evaluation triggering on completion -/

/-- The full successful run of the sample rag job, the state it leaves. -/
def ragFullRunDb : DBState :=
  applyExecEffects oracleNone 1 ⟨[(1, sampleRagJob)], [], []⟩
    (RagTrainingExecutor.execute_training sampleRagJob ragOK loraOK 500)

/-- C8 counterexample: a knowledge-augmentation job completing successfully
through the rag executor yields two evaluation records, not exactly one —
the COMPLETED update's automatic-evaluation hook inserts and starts one,
and _store_training_evaluation inserts a second, mock-metrics one. -/
theorem two_evaluations_counterexample :
    (dbLookup ragFullRunDb.jobs 1).map (·.status) = some "COMPLETED" ∧
    ragFullRunDb.evals.length = 2 ∧
    ragFullRunDb.evals.length ≠ 1 ∧
    ragFullRunDb.evals.map (·.dataset_id) = [some 7, some 7] ∧
    ragFullRunDb.startedEvals = [0] :=
  ⟨by decide, by decide, by decide, by decide, by decide⟩

theorem hook_on_complete (o : HookOracle) (db : DBState) (id : Nat) (u : JobUpdate)
    (hu : u.status = some "COMPLETED") (row : JobRow)
    (hrow : dbLookup db.jobs id = some row)
    (hmn : strFalsy (applyJobUpdate row u).model_name = false)
    (d : Nat) (ds : List Nat)
    (hds : (applyJobUpdate row u).config.selectedDatasets = d :: ds) :
    ∃ e : EvalRow, ((update_training_job o db id u).1).evals = db.evals ++ [e] ∧
      e.dataset_id = some d ∧ e.evaluation_type = "accuracy" ∧ e.status = "PENDING" ∧
      ((update_training_job o db id u).1).startedEvals
        = db.startedEvals ++ [db.evals.length] := by
  unfold update_training_job
  dsimp only
  rw [if_pos hu]
  unfold create_automatic_evaluation
  have hlk : dbLookup (db.jobs.map fun p => if p.1 = id then (p.1, applyJobUpdate p.2 u)
      else p) id = some (applyJobUpdate row u) := by
    have h := dbLookup_mapUpdate db.jobs id (fun r => applyJobUpdate r u) id
    rw [if_pos rfl, hrow] at h
    exact h
  dsimp only
  rw [hlk]
  dsimp only
  rw [hmn]
  try dsimp only
  rw [hds]
  exact ⟨_, rfl, rfl, rfl, rfl, rfl⟩

theorem hook_no_datasets (o : HookOracle) (db : DBState) (id : Nat) (u : JobUpdate)
    (row : JobRow) (hrow : dbLookup db.jobs id = some row)
    (hds : (applyJobUpdate row u).config.selectedDatasets = []) :
    ((update_training_job o db id u).1).evals = db.evals ∧
      ((update_training_job o db id u).1).startedEvals = db.startedEvals := by
  unfold update_training_job
  dsimp only
  by_cases hu : u.status = some "COMPLETED"
  · rw [if_pos hu]
    unfold create_automatic_evaluation
    have hlk : dbLookup (db.jobs.map fun p => if p.1 = id then (p.1, applyJobUpdate p.2 u)
        else p) id = some (applyJobUpdate row u) := by
      have h := dbLookup_mapUpdate db.jobs id (fun r => applyJobUpdate r u) id
      rw [if_pos rfl, hrow] at h
      exact h
    dsimp only
    rw [hlk]
    dsimp only
    cases hml : strFalsy (applyJobUpdate row u).model_name
    · rw [if_neg (by decide : ¬ (false = true))]
      rw [hds]
      exact ⟨rfl, rfl⟩
    · rw [if_pos (rfl : (true = true))]
      exact ⟨rfl, rfl⟩
  · rw [if_neg hu]
    exact ⟨rfl, rfl⟩

/-- The effect list of a successful adapter-tuning run of the default
executor (training_executor.py), identical in shape to the rag executor's
lora path. -/
theorem te_lora_exec_success_effects (job : JobRow) (orag : TrainingExecutor.RagStageOracle)
    (tnow : Nat) (hty : lowerString job.training_type = "lora") :
    TrainingExecutor.execute_training job orag ⟨none, none, none⟩ tnow
      = [ExecEffect.stageW (StageWrite.setProgress (mkRat 1 10)),
         ExecEffect.stageW (StageWrite.setProgress (mkRat 2 10)),
         ExecEffect.stageW (StageWrite.setProgress (mkRat 8 10)),
         ExecEffect.stageW (StageWrite.setProgress (mkRat 95 100)),
         ExecEffect.stageW (StageWrite.complete tnow)] := by
  unfold TrainingExecutor.execute_training TrainingExecutor.lora_writes
  rw [if_neg (show ¬ lowerString job.training_type = "rag" by rw [hty]; decide), if_pos hty]
  rfl

theorem applyExecEffects_cons (o : HookOracle) (id : Nat) (db : DBState) (e : ExecEffect)
    (t : List ExecEffect) :
    applyExecEffects o id db (e :: t) = applyExecEffects o id (applyExecEffect o id db e) t :=
  rfl

theorem applyExecEffects_nil (o : HookOracle) (id : Nat) (db : DBState) :
    applyExecEffects o id db [] = db := rfl

theorem applyExecEffect_stageW (o : HookOracle) (id : Nat) (db : DBState) (w : StageWrite) :
    applyExecEffect o id db (ExecEffect.stageW w) = (update_training_job o db id w.toUpdate).1 :=
  rfl

theorem storeEval_step (o : HookOracle) (db : DBState) (id : Nat) (m : String)
    (b : Option String) (d : Nat) (ds : List Nat) (t : Nat) :
    (applyExecEffect o id db (ExecEffect.storeEval m b (d :: ds) t)).evals
      = db.evals ++ [mockEvalRow m b d t] ∧
    (applyExecEffect o id db (ExecEffect.storeEval m b (d :: ds) t)).startedEvals
      = db.startedEvals :=
  ⟨rfl, rfl⟩

theorem progress_step_state (o : HookOracle) (db : DBState) (id : Nat) (p : ℚ)
    (row : JobRow) (hrow : dbLookup db.jobs id = some row) :
    dbLookup ((update_training_job o db id (StageWrite.setProgress p).toUpdate).1).jobs id
      = some (applyJobUpdate row (StageWrite.setProgress p).toUpdate) ∧
    ((update_training_job o db id (StageWrite.setProgress p).toUpdate).1).evals = db.evals ∧
    ((update_training_job o db id (StageWrite.setProgress p).toUpdate).1).startedEvals
      = db.startedEvals := by
  refine ⟨?_, ?_, ?_⟩
  · have h := update_training_job_lookup o db id (StageWrite.setProgress p).toUpdate id
    rw [if_pos rfl, hrow] at h
    exact h
  · exact (update_training_job_evals_of_ne o db id _ (fun h => Option.noConfusion h)).1
  · exact (update_training_job_evals_of_ne o db id _ (fun h => Option.noConfusion h)).2

/-- C8 amended: a COMPLETED persistence triggers the automatic-evaluation
hook, so a successful adapter-tuning run creates and starts exactly one
PENDING accuracy evaluation referencing the first configured dataset id
(and none when no datasets are configured — the hook returns after a
logged message); but a successful knowledge-augmentation run through the
rag executor creates two evaluation records — the automatic one, which is
started, plus the mock-metrics record of _store_training_evaluation, which
is not — both referencing the first dataset id. -/
theorem completion_triggers_evaluation (o : HookOracle) (db : DBState) (id tnow : Nat)
    (job : JobRow) (hrow : dbLookup db.jobs id = some job)
    (hmn : strFalsy job.model_name = false) :
    (lowerString job.training_type = "lora" →
      ∀ d ds, job.config.selectedDatasets = d :: ds →
      ∀ orag : TrainingExecutor.RagStageOracle,
      ∃ e : EvalRow,
        (applyExecEffects o id db (TrainingExecutor.execute_training job orag
            ⟨none, none, none⟩ tnow)).evals = db.evals ++ [e] ∧
        e.dataset_id = some d ∧ e.evaluation_type = "accuracy" ∧ e.status = "PENDING" ∧
        (applyExecEffects o id db (TrainingExecutor.execute_training job orag
            ⟨none, none, none⟩ tnow)).startedEvals
          = db.startedEvals ++ [db.evals.length]) ∧
    (lowerString job.training_type = "lora" → job.config.selectedDatasets = [] →
      ∀ orag : TrainingExecutor.RagStageOracle,
      (applyExecEffects o id db (TrainingExecutor.execute_training job orag
          ⟨none, none, none⟩ tnow)).evals = db.evals ∧
      (applyExecEffects o id db (TrainingExecutor.execute_training job orag
          ⟨none, none, none⟩ tnow)).startedEvals = db.startedEvals) ∧
    (lowerString job.training_type = "rag" →
      ∀ d ds, job.config.selectedDatasets = d :: ds →
      ∀ olora : TrainingExecutor.LoraStageOracle,
      ∃ e1 e2 : EvalRow,
        (applyExecEffects o id db (RagTrainingExecutor.execute_training job
            ⟨none, none, none⟩ olora tnow)).evals = db.evals ++ [e1, e2] ∧
        e1.dataset_id = some d ∧ e1.status = "PENDING" ∧
        e2.dataset_id = some d ∧ e2.status = "COMPLETED" ∧
        (applyExecEffects o id db (RagTrainingExecutor.execute_training job
            ⟨none, none, none⟩ olora tnow)).startedEvals
          = db.startedEvals ++ [db.evals.length]) := by
  refine ⟨?_, ?_, ?_⟩
  · intro hty d ds hds orag
    rw [te_lora_exec_success_effects job orag tnow hty]
    simp only [applyExecEffects_cons, applyExecEffects_nil, applyExecEffect_stageW]
    obtain ⟨hl1, he1, hs1⟩ := progress_step_state o db id (mkRat 1 10) job hrow
    obtain ⟨hl2, he2, hs2⟩ := progress_step_state o _ id (mkRat 2 10) _ hl1
    obtain ⟨hl3, he3, hs3⟩ := progress_step_state o _ id (mkRat 8 10) _ hl2
    obtain ⟨hl4, he4, hs4⟩ := progress_step_state o _ id (mkRat 95 100) _ hl3
    obtain ⟨e, hev, hed, hacc, hpend, hstart⟩ :=
      hook_on_complete o _ id (StageWrite.complete tnow).toUpdate rfl _ hl4 hmn d ds hds
    refine ⟨e, ?_, hed, hacc, hpend, ?_⟩
    · rw [hev, he4, he3, he2, he1]
    · rw [hstart, hs4, hs3, hs2, hs1, he4, he3, he2, he1]
  · intro hty hds orag
    rw [te_lora_exec_success_effects job orag tnow hty]
    simp only [applyExecEffects_cons, applyExecEffects_nil, applyExecEffect_stageW]
    obtain ⟨hl1, he1, hs1⟩ := progress_step_state o db id (mkRat 1 10) job hrow
    obtain ⟨hl2, he2, hs2⟩ := progress_step_state o _ id (mkRat 2 10) _ hl1
    obtain ⟨hl3, he3, hs3⟩ := progress_step_state o _ id (mkRat 8 10) _ hl2
    obtain ⟨hl4, he4, hs4⟩ := progress_step_state o _ id (mkRat 95 100) _ hl3
    obtain ⟨hev, hstart⟩ :=
      hook_no_datasets o _ id (StageWrite.complete tnow).toUpdate _ hl4 hds
    constructor
    · rw [hev, he4, he3, he2, he1]
    · rw [hstart, hs4, hs3, hs2, hs1]
  · intro hty d ds hds olora
    rw [rag_exec_success_effects job olora tnow hty]
    rw [hds]
    simp only [applyExecEffects_cons, applyExecEffects_nil, applyExecEffect_stageW]
    obtain ⟨hl1, he1, hs1⟩ := progress_step_state o db id (mkRat 1 10) job hrow
    obtain ⟨hl2, he2, hs2⟩ := progress_step_state o _ id (mkRat 3 10) _ hl1
    obtain ⟨hl3, he3, hs3⟩ := progress_step_state o _ id (mkRat 6 10) _ hl2
    obtain ⟨hl4, he4, hs4⟩ := progress_step_state o _ id (mkRat 9 10) _ hl3
    obtain ⟨e1, hev, hed, hacc, hpend, hstart⟩ :=
      hook_on_complete o _ id (StageWrite.completeWithName tnow
        (RagTrainingExecutor.create_ollama_model_name job.name)).toUpdate rfl _ hl4 hmn d ds hds
    refine ⟨e1, mockEvalRow (RagTrainingExecutor.create_ollama_model_name job.name)
      job.base_model d tnow, ?_, hed, hpend, rfl, rfl, ?_⟩
    · rw [(storeEval_step o _ id _ job.base_model d ds tnow).1]
      rw [hev, he4, he3, he2, he1, List.append_assoc]
      rfl
    · rw [(storeEval_step o _ id _ job.base_model d ds tnow).2]
      rw [hstart, hs4, hs3, hs2, hs1, he4, he3, he2, he1]

/-- C8 witness: the sample rag job (truthy model name, dataset 7 first) in
a one-job store. -/
theorem completion_triggers_evaluation_witness :
    strFalsy sampleRagJob.model_name = false ∧
    ((lowerString sampleRagJob.training_type = "lora" →
      ∀ d ds, sampleRagJob.config.selectedDatasets = d :: ds →
      ∀ orag : TrainingExecutor.RagStageOracle,
      ∃ e : EvalRow,
        (applyExecEffects oracleNone 1 ⟨[(1, sampleRagJob)], [], []⟩
            (TrainingExecutor.execute_training sampleRagJob orag
              ⟨none, none, none⟩ 500)).evals = [] ++ [e] ∧
        e.dataset_id = some d ∧ e.evaluation_type = "accuracy" ∧ e.status = "PENDING" ∧
        (applyExecEffects oracleNone 1 ⟨[(1, sampleRagJob)], [], []⟩
            (TrainingExecutor.execute_training sampleRagJob orag
              ⟨none, none, none⟩ 500)).startedEvals
          = [] ++ [([] : List EvalRow).length]) ∧
    (lowerString sampleRagJob.training_type = "lora" →
      sampleRagJob.config.selectedDatasets = [] →
      ∀ orag : TrainingExecutor.RagStageOracle,
      (applyExecEffects oracleNone 1 ⟨[(1, sampleRagJob)], [], []⟩
          (TrainingExecutor.execute_training sampleRagJob orag
            ⟨none, none, none⟩ 500)).evals = [] ∧
      (applyExecEffects oracleNone 1 ⟨[(1, sampleRagJob)], [], []⟩
          (TrainingExecutor.execute_training sampleRagJob orag
            ⟨none, none, none⟩ 500)).startedEvals = []) ∧
    (lowerString sampleRagJob.training_type = "rag" →
      ∀ d ds, sampleRagJob.config.selectedDatasets = d :: ds →
      ∀ olora : TrainingExecutor.LoraStageOracle,
      ∃ e1 e2 : EvalRow,
        (applyExecEffects oracleNone 1 ⟨[(1, sampleRagJob)], [], []⟩
            (RagTrainingExecutor.execute_training sampleRagJob
              ⟨none, none, none⟩ olora 500)).evals = [] ++ [e1, e2] ∧
        e1.dataset_id = some d ∧ e1.status = "PENDING" ∧
        e2.dataset_id = some d ∧ e2.status = "COMPLETED" ∧
        (applyExecEffects oracleNone 1 ⟨[(1, sampleRagJob)], [], []⟩
            (RagTrainingExecutor.execute_training sampleRagJob
              ⟨none, none, none⟩ olora 500)).startedEvals
          = [] ++ [([] : List EvalRow).length])) :=
  ⟨by decide,
    completion_triggers_evaluation oracleNone ⟨[(1, sampleRagJob)], [], []⟩ 1 500
      sampleRagJob (by decide) (by decide)⟩

/-! ### C9 — target-name derivation

The concrete mappings are settled by evaluation; idempotence of the base
pipeline is proved by showing every pipeline stage fixes the pipeline's own
output: its characters are lower-case alphanumerics or isolated hyphens,
with no hyphen at either end.
-/

theorem toNat_ofNat_valid (n : Nat) (h : n < 0xd800) : (Char.ofNat n).toNat = n := by
  rw [Char.ofNat, dif_pos (Or.inl h : Nat.isValidChar n)]
  rfl

theorem toLower_toLower (c : Char) : c.toLower.toLower = c.toLower := by
  unfold Char.toLower
  by_cases h : c.toNat ≥ 65 ∧ c.toNat ≤ 90
  · rw [if_pos h]
    have ht : (Char.ofNat (c.toNat + 32)).toNat = c.toNat + 32 :=
      toNat_ofNat_valid _ (by omega)
    rw [if_neg]
    omega
  · rw [if_neg h, if_neg h]

/-- Characters the base pipeline can output: lower-case letters, digits, and
the hyphen. -/
def cleanChar (c : Char) : Bool :=
  c.isLower || c.isDigit || c = '-'

theorem cleanChar_toLower_of_alnum {c : Char} (h : c.isAlphanum = true) :
    cleanChar c.toLower = true := by
  have hb : (97 ≤ c.toLower.toNat ∧ c.toLower.toNat ≤ 122)
      ∨ (48 ≤ c.toLower.toNat ∧ c.toLower.toNat ≤ 57) := by
    simp only [Char.isAlphanum, Char.isAlpha, Char.isLower, Char.isUpper, Char.isDigit,
      Bool.or_eq_true, Bool.and_eq_true, decide_eq_true_eq] at h
    unfold Char.toLower
    by_cases hu : c.toNat ≥ 65 ∧ c.toNat ≤ 90
    · rw [if_pos hu]
      have ht : (Char.ofNat (c.toNat + 32)).toNat = c.toNat + 32 :=
        toNat_ofNat_valid _ (by omega)
      omega
    · rw [if_neg hu]
      rcases h with (h | h) | h
      · exact absurd ⟨by exact_mod_cast h.1, by exact_mod_cast h.2⟩ hu
      · exact Or.inl ⟨by exact_mod_cast h.1, by exact_mod_cast h.2⟩
      · exact Or.inr ⟨by exact_mod_cast h.1, by exact_mod_cast h.2⟩
  simp only [cleanChar, Char.isLower, Char.isDigit, Bool.or_eq_true, Bool.and_eq_true,
    decide_eq_true_eq]
  rcases hb with h | h
  · exact Or.inl (Or.inl ⟨by exact_mod_cast h.1, by exact_mod_cast h.2⟩)
  · exact Or.inl (Or.inr ⟨by exact_mod_cast h.1, by exact_mod_cast h.2⟩)

theorem cleanChar_bounds {c : Char} (h : cleanChar c = true) :
    (97 ≤ c.toNat ∧ c.toNat ≤ 122) ∨ (48 ≤ c.toNat ∧ c.toNat ≤ 57) ∨ c = '-' := by
  simp only [cleanChar, Char.isLower, Char.isDigit, Bool.or_eq_true, Bool.and_eq_true,
    decide_eq_true_eq] at h
  rcases h with (h | h) | h
  · exact Or.inl ⟨by exact_mod_cast h.1, by exact_mod_cast h.2⟩
  · exact Or.inr (Or.inl ⟨by exact_mod_cast h.1, by exact_mod_cast h.2⟩)
  · exact Or.inr (Or.inr h)

theorem keepBaseChar_of_clean {c : Char} (h : cleanChar c = true) :
    keepBaseChar c = true := by
  rcases cleanChar_bounds h with hb | hb | hb
  · have h1 : c.isLower = true := by
      simp only [Char.isLower, Bool.and_eq_true, decide_eq_true_eq]
      exact ⟨by exact_mod_cast hb.1, by exact_mod_cast hb.2⟩
    simp [keepBaseChar, Char.isAlphanum, Char.isAlpha, h1]
  · have h1 : c.isDigit = true := by
      simp only [Char.isDigit, Bool.and_eq_true, decide_eq_true_eq]
      exact ⟨by exact_mod_cast hb.1, by exact_mod_cast hb.2⟩
    simp [keepBaseChar, Char.isAlphanum, h1]
  · subst hb
    decide

theorem not_pyspace_of_clean {c : Char} (h : cleanChar c = true) : isPySpace c = false := by
  rcases cleanChar_bounds h with hb | hb | hb
  · by_contra hne
    simp only [Bool.not_eq_false, isPySpace, Bool.or_eq_true, decide_eq_true_eq] at hne
    rcases hne with ((((h1 | h1) | h1) | h1) | h1) | h1 <;>
      · subst h1
        exact absurd hb (by decide)
  · by_contra hne
    simp only [Bool.not_eq_false, isPySpace, Bool.or_eq_true, decide_eq_true_eq] at hne
    rcases hne with ((((h1 | h1) | h1) | h1) | h1) | h1 <;>
      · subst h1
        exact absurd hb (by decide)
  · subst hb
    decide

theorem toLower_eq_self_of_clean {c : Char} (h : cleanChar c = true) : c.toLower = c := by
  unfold Char.toLower
  rcases cleanChar_bounds h with hb | hb | hb
  · rw [if_neg (by omega)]
  · rw [if_neg (by omega)]
  · subst hb
    decide

theorem mem_collapseRuns (p : Char → Bool) (rep : Char) :
    ∀ (l : List Char) (c : Char), c ∈ collapseRuns p rep l →
      c = rep ∨ (c ∈ l ∧ p c = false) := by
  intro l
  induction l with
  | nil => intro c h; simp [collapseRuns] at h
  | cons a t ih =>
    intro c h
    cases t with
    | nil =>
      cases ha : p a <;> simp [collapseRuns, ha] at h
      · exact Or.inr ⟨by simp [h], by rw [h]; exact ha⟩
      · exact Or.inl h
    | cons d cs =>
      cases ha : p a
      · rw [show collapseRuns p rep (a :: d :: cs)
            = a :: collapseRuns p rep (d :: cs) by rw [collapseRuns, ha]; rfl] at h
        rcases List.mem_cons.mp h with hc | hc
        · subst hc
          exact Or.inr ⟨List.mem_cons_self c _, ha⟩
        · rcases ih c hc with h1 | ⟨h1, h2⟩
          · exact Or.inl h1
          · exact Or.inr ⟨List.mem_cons_of_mem a h1, h2⟩
      · cases hd : p d
        · rw [show collapseRuns p rep (a :: d :: cs)
              = rep :: collapseRuns p rep (d :: cs) by rw [collapseRuns, ha, hd]; rfl] at h
          rcases List.mem_cons.mp h with hc | hc
          · exact Or.inl hc
          · rcases ih c hc with h1 | ⟨h1, h2⟩
            · exact Or.inl h1
            · exact Or.inr ⟨List.mem_cons_of_mem a h1, h2⟩
        · rw [show collapseRuns p rep (a :: d :: cs)
              = collapseRuns p rep (d :: cs) by rw [collapseRuns, ha, hd]; rfl] at h
          rcases ih c h with h1 | ⟨h1, h2⟩
          · exact Or.inl h1
          · exact Or.inr ⟨List.mem_cons_of_mem a h1, h2⟩

theorem head?_collapseRuns (p : Char → Bool) (rep : Char) :
    ∀ l : List Char, (collapseRuns p rep l).head?
      = l.head?.map (fun c => if p c then rep else c) := by
  intro l
  induction l with
  | nil => rfl
  | cons a t ih =>
    cases t with
    | nil => cases ha : p a <;> simp [collapseRuns, ha]
    | cons d cs =>
      cases ha : p a
      · rw [show collapseRuns p rep (a :: d :: cs)
            = a :: collapseRuns p rep (d :: cs) by rw [collapseRuns, ha]; rfl]
        simp [ha]
      · cases hd : p d
        · rw [show collapseRuns p rep (a :: d :: cs)
              = rep :: collapseRuns p rep (d :: cs) by rw [collapseRuns, ha, hd]; rfl]
          simp [ha]
        · rw [show collapseRuns p rep (a :: d :: cs)
              = collapseRuns p rep (d :: cs) by rw [collapseRuns, ha, hd]; rfl]
          rw [ih]
          simp [ha, hd]

theorem chain'_collapseRuns (p : Char → Bool) (rep : Char) :
    ∀ l : List Char, (collapseRuns p rep l).Chain'
      (fun a b => p a = false ∨ p b = false) := by
  intro l
  induction l with
  | nil => simp [collapseRuns]
  | cons a t ih =>
    cases t with
    | nil => cases ha : p a <;> simp [collapseRuns, ha]
    | cons d cs =>
      cases ha : p a
      · rw [show collapseRuns p rep (a :: d :: cs)
            = a :: collapseRuns p rep (d :: cs) by rw [collapseRuns, ha]; rfl]
        rw [List.chain'_cons']
        exact ⟨fun y _ => Or.inl ha, ih⟩
      · cases hd : p d
        · rw [show collapseRuns p rep (a :: d :: cs)
              = rep :: collapseRuns p rep (d :: cs) by rw [collapseRuns, ha, hd]; rfl]
          rw [List.chain'_cons']
          refine ⟨?_, ih⟩
          intro y hy
          rw [head?_collapseRuns, Option.mem_def] at hy
          simp only [List.head?_cons, Option.map_some'] at hy
          rw [hd] at hy
          simp at hy
          subst hy
          exact Or.inr hd
        · rw [show collapseRuns p rep (a :: d :: cs)
              = collapseRuns p rep (d :: cs) by rw [collapseRuns, ha, hd]; rfl]
          exact ih

theorem collapseRuns_eq_self (p : Char → Bool) (rep : Char) :
    ∀ l : List Char, (∀ c ∈ l, p c = true → c = rep) →
      l.Chain' (fun a b => p a = false ∨ p b = false) →
      collapseRuns p rep l = l := by
  intro l
  induction l with
  | nil => intro _ _; rfl
  | cons a t ih =>
    intro h1 h2
    cases t with
    | nil =>
      cases ha : p a
      · simp [collapseRuns, ha]
      · simp [collapseRuns, ha]
        exact (h1 a (List.mem_cons_self a []) ha).symm
    | cons d cs =>
      rw [List.chain'_cons] at h2
      cases ha : p a
      · rw [show collapseRuns p rep (a :: d :: cs)
            = a :: collapseRuns p rep (d :: cs) by rw [collapseRuns, ha]; rfl]
        rw [ih (fun c hc hp => h1 c (List.mem_cons_of_mem a hc) hp) h2.2]
      · have hd : p d = false := by
          rcases h2.1 with h | h
          · rw [ha] at h
            exact absurd h (by simp)
          · exact h
        rw [show collapseRuns p rep (a :: d :: cs)
            = rep :: collapseRuns p rep (d :: cs) by rw [collapseRuns, ha, hd]; rfl]
        rw [ih (fun c hc hp => h1 c (List.mem_cons_of_mem a hc) hp) h2.2]
        rw [h1 a (List.mem_cons_self a _) ha]

theorem head?_dropWhile_not (p : Char → Bool) :
    ∀ (l : List Char) (a : Char), (l.dropWhile p).head? = some a → p a = false := by
  intro l
  induction l with
  | nil => intro a h; simp at h
  | cons c cs ih =>
    intro a h
    rw [List.dropWhile_cons] at h
    by_cases hc : p c = true
    · rw [if_pos hc] at h
      exact ih a h
    · rw [if_neg hc] at h
      simp at h
      rw [← h]
      simpa using hc

theorem getLast?_of_suffix {l₁ l₂ : List Char} (h : l₁ <:+ l₂) {a : Char}
    (ha : l₁.getLast? = some a) : l₂.getLast? = some a := by
  obtain ⟨t, rfl⟩ := h
  rw [List.getLast?_append, ha]
  rfl

theorem trimEnds_head_not (p : Char → Bool) (l : List Char) :
    ∀ a : Char, (trimEnds p l).head? = some a → p a = false := by
  intro a ha
  unfold trimEnds at ha
  rw [List.head?_reverse] at ha
  have h2 : ((l.dropWhile p).reverse).getLast? = some a :=
    getLast?_of_suffix (List.dropWhile_suffix p) ha
  rw [List.getLast?_reverse] at h2
  exact head?_dropWhile_not p l a h2

theorem trimEnds_getLast_not (p : Char → Bool) (l : List Char) :
    ∀ a : Char, (trimEnds p l).getLast? = some a → p a = false := by
  intro a ha
  unfold trimEnds at ha
  rw [List.getLast?_reverse] at ha
  exact head?_dropWhile_not p _ a ha

theorem trimEnds_eq_self (p : Char → Bool) (l : List Char)
    (hh : ∀ a, l.head? = some a → p a = false)
    (hl : ∀ a, l.getLast? = some a → p a = false) : trimEnds p l = l := by
  have h1 : l.dropWhile p = l := by
    cases l with
    | nil => rfl
    | cons a t =>
      rw [List.dropWhile_cons, if_neg]
      simp [hh a rfl]
  unfold trimEnds
  rw [h1]
  have h2 : l.reverse.dropWhile p = l.reverse := by
    cases hr : l.reverse with
    | nil => rfl
    | cons a t =>
      rw [List.dropWhile_cons, if_neg]
      have : l.getLast? = some a := by
        rw [← List.head?_reverse, hr]
        rfl
      simp [hl a this]
  rw [h2, List.reverse_reverse]

theorem mem_trimEnds (p : Char → Bool) (l : List Char) (c : Char)
    (h : c ∈ trimEnds p l) : c ∈ l := by
  unfold trimEnds at h
  rw [List.mem_reverse] at h
  have h2 := (List.dropWhile_suffix p).subset h
  rw [List.mem_reverse] at h2
  exact (List.dropWhile_suffix p).subset h2

theorem chain'_trimEnds {R : Char → Char → Prop}
    (p : Char → Bool) (l : List Char) (h : l.Chain' R) : (trimEnds p l).Chain' R := by
  unfold trimEnds
  have h1 : (l.dropWhile p).Chain' R := h.suffix (List.dropWhile_suffix p)
  have h2 : ((l.dropWhile p).reverse).Chain' (flip R) := by
    rw [List.chain'_reverse]
    refine List.Chain'.imp ?_ h1
    intro a b hab
    exact hab
  have h3 : (((l.dropWhile p).reverse).dropWhile p).Chain' (flip R) :=
    h2.suffix (List.dropWhile_suffix p)
  rw [List.chain'_reverse]
  exact h3

theorem chain'_of_all_not (p : Char → Bool) (l : List Char)
    (h : ∀ c ∈ l, p c = false) :
    l.Chain' (fun a b => p a = false ∨ p b = false) := by
  induction l with
  | nil => simp
  | cons a t ih =>
    rw [List.chain'_cons']
    exact ⟨fun y _ => Or.inl (h a (List.mem_cons_self a t)),
      ih (fun c hc => h c (List.mem_cons_of_mem a hc))⟩

theorem mem_sanitizeBaseList_clean (l : List Char) :
    ∀ c ∈ sanitizeBaseList l, cleanChar c = true := by
  intro c hc
  unfold sanitizeBaseList at hc
  have hc2 := mem_trimEnds _ _ _ hc
  rcases mem_collapseRuns isHyphen '-' _ c hc2 with h | ⟨h, _⟩
  · subst h
    decide
  · rcases List.mem_map.mp h with ⟨a, ha, rfl⟩
    rcases mem_collapseRuns isPySpace '-' _ a ha with h2 | ⟨h2, hws⟩
    · subst h2
      decide
    · have hk := List.of_mem_filter h2
      simp only [keepBaseChar, Bool.or_eq_true] at hk
      rcases hk with (hk | hk) | hk
      · exact cleanChar_toLower_of_alnum hk
      · rw [hk] at hws
        exact absurd hws (by simp)
      · have : a = '-' := by simpa using hk
        subst this
        decide

theorem sanitizeBaseList_idem (l : List Char) :
    sanitizeBaseList (sanitizeBaseList l) = sanitizeBaseList l := by
  have hclean : ∀ c ∈ sanitizeBaseList l, cleanChar c = true := mem_sanitizeBaseList_clean l
  have hchain : (sanitizeBaseList l).Chain'
      (fun a b => isHyphen a = false ∨ isHyphen b = false) :=
    chain'_trimEnds isHyphen _ (chain'_collapseRuns isHyphen '-' _)
  have hhead : ∀ a, (sanitizeBaseList l).head? = some a → isHyphen a = false :=
    fun a ha => trimEnds_head_not isHyphen _ a ha
  have hlast : ∀ a, (sanitizeBaseList l).getLast? = some a → isHyphen a = false :=
    fun a ha => trimEnds_getLast_not isHyphen _ a ha
  have hfilter : (sanitizeBaseList l).filter keepBaseChar = sanitizeBaseList l :=
    List.filter_eq_self.mpr (fun c hc => keepBaseChar_of_clean (hclean c hc))
  have hws : collapseRuns isPySpace '-' (sanitizeBaseList l) = sanitizeBaseList l :=
    collapseRuns_eq_self isPySpace '-' _
      (fun c hc hp => absurd hp (by rw [not_pyspace_of_clean (hclean c hc)]; simp))
      (chain'_of_all_not isPySpace _ (fun c hc => not_pyspace_of_clean (hclean c hc)))
  have hlower : (sanitizeBaseList l).map Char.toLower = sanitizeBaseList l := by
    rw [List.map_congr_left (fun c hc => toLower_eq_self_of_clean (hclean c hc)),
      List.map_id']
  have hhyph : collapseRuns isHyphen '-' (sanitizeBaseList l) = sanitizeBaseList l :=
    collapseRuns_eq_self isHyphen '-' _
      (fun c _ hp => by simpa [isHyphen] using hp) hchain
  have htrim : trimEnds isHyphen (sanitizeBaseList l) = sanitizeBaseList l :=
    trimEnds_eq_self isHyphen _ hhead hlast
  show trimEnds isHyphen
      (collapseRuns isHyphen '-'
        ((collapseRuns isPySpace '-' ((sanitizeBaseList l).filter keepBaseChar)).map
          Char.toLower)) = sanitizeBaseList l
  rw [hfilter, hws, hlower, hhyph, htrim]

theorem toList_append (a b : String) : (a ++ b).toList = a.toList ++ b.toList :=
  String.data_append a b

theorem takeWhile_append_all (p : Char → Bool) :
    ∀ (l₁ l₂ : List Char), (∀ c ∈ l₁, p c = true) →
      (l₁ ++ l₂).takeWhile p = l₁ ++ l₂.takeWhile p := by
  intro l₁
  induction l₁ with
  | nil => intro l₂ _; rfl
  | cons a t ih =>
    intro l₂ h
    rw [List.cons_append, List.takeWhile_cons, if_pos (h a (List.mem_cons_self a t)),
      ih l₂ (fun c hc => h c (List.mem_cons_of_mem a hc)), List.cons_append]

theorem no_colon_in_base (l : List Char) :
    ∀ c ∈ sanitizeBaseList l, decide (c ≠ ':') = true := by
  intro c hc
  have h := mem_sanitizeBaseList_clean l c hc
  simp only [ne_eq, decide_eq_true_eq]
  intro hcol
  subst hcol
  exact absurd h (by decide)

theorem beforeColon_sanitize (name version : String) :
    beforeColon (sanitize_model_name name version) = sanitizeBase name := by
  unfold sanitize_model_name beforeColon
  have hbase : (sanitizeBase name).toList = sanitizeBaseList name.toList := rfl
  simp only []
  split
  · rw [toList_append, toList_append, List.append_assoc]
    rw [takeWhile_append_all _ _ _ (by rw [hbase]; exact no_colon_in_base name.toList)]
    rw [show (":" : String).toList ++
        (String.mk ((pyStripWs version).toList.map sanitizeVersionChar |>.map Char.toLower)
          |>.toList)
      = ':' :: ((pyStripWs version).toList.map sanitizeVersionChar |>.map Char.toLower)
      from rfl]
    rw [List.takeWhile_cons, if_neg (by decide)]
    rw [List.append_nil]
    rfl
  · rw [toList_append]
    rw [takeWhile_append_all _ _ _ (by rw [hbase]; exact no_colon_in_base name.toList)]
    rw [show (":latest" : String).toList = ':' :: "latest".toList from rfl]
    rw [List.takeWhile_cons, if_neg (by decide)]
    rw [List.append_nil]
    rfl

/-- C9: the derived target name maps the human name My Cool Model with two
exclamation marks and no version to my-cool-model latest, and with version
1.0 to my-cool-model 1.0; the part before the colon of every derived name is
exactly the sanitized base, and the base sanitization is idempotent — so
re-deriving from a derived name's base changes nothing. -/
theorem sanitize_model_name_spec :
    sanitize_model_name "My Cool Model!!" "" = "my-cool-model:latest" ∧
    sanitize_model_name "My Cool Model!!" "1.0" = "my-cool-model:1.0" ∧
    (∀ name version : String,
      beforeColon (sanitize_model_name name version) = sanitizeBase name) ∧
    (∀ name : String, sanitizeBase (sanitizeBase name) = sanitizeBase name) := by
  refine ⟨by decide, by decide, beforeColon_sanitize, ?_⟩
  intro name
  show String.mk (sanitizeBaseList (String.mk (sanitizeBaseList name.toList)).toList)
    = String.mk (sanitizeBaseList name.toList)
  rw [show (String.mk (sanitizeBaseList name.toList)).toList
    = sanitizeBaseList name.toList from rfl]
  rw [sanitizeBaseList_idem]

end AiRepublic
